import Mathlib

/-!
A shallow embedding of `src/resp_protein_toolkit/protein_ml_models/bytenet_antibody_only.py`
(the ByteNet-style CNN for antibody property prediction) together with proofs about it.

Modelling conventions:
* Tensors are nested lists of real numbers; a batched sequence tensor of shape
  `(B, L, C)` is a list of `B` samples, each a list of `L` positions, each a list
  of `C` channel values.  Shape errors raised by the torch runtime are modelled by
  `Option` (a `none` result models a raised runtime error).
* Floating-point arithmetic is idealised over `ℝ`.
* Random weight initialisation is external to the embedded code (torch's seeded RNG):
  constructors receive the freshly initialised weight tensors as explicit arguments,
  and all theorems quantify over them.
* Spectral normalisation is a reparameterisation of a weight tensor (a positive
  rescaling applied before use).  Since every theorem below quantifies over the
  effective weight values, the stored weights stand for the post-normalisation
  weights and no separate rescaling step is modelled.
* `torch.nn.functional.dropout`'s random mask is modelled by an explicit multiplier
  function supplied to `forward` (the Bernoulli-over-keep-probability multiplier).
-/

/-- A rank-2 real tensor: a list of rows. -/
abbrev Mat : Type := List (List ℝ)

/-- A rank-3 real tensor: a batch of rank-2 tensors. -/
abbrev Tens3 : Type := List (List (List ℝ))

/-- Reading a 1-D tensor with implicit zero padding outside its bounds, as the
convolution primitive does on a padded input. -/
noncomputable def padGet (v : List ℝ) (i : ℤ) : ℝ :=
  if 0 ≤ i then v.getD i.toNat 0 else 0

/-- The transposition `Tensor.transpose(1, 2)` applied to one sample: an `(a, b)`
rectangular list becomes a `(b, a)` one.  The inner length is read off the first
row, as the shape of a rectangular tensor determines it. -/
noncomputable def swap12 (x : List (List ℝ)) : List (List ℝ) :=
  (List.range x.headI.length).map (fun j => x.map (fun r => r.getD j 0))

/-- Output length of `torch.nn.Conv1d` on an input of length `L` with padding `p`,
dilation `d`, kernel size `k` and stride `s`; `none` models the runtime error torch
raises when the computed output size would not be positive. -/
def convOutLen (L p d k s : ℕ) : Option ℕ :=
  if d * (k - 1) + 1 ≤ L + 2 * p then some ((L + 2 * p - d * (k - 1) - 1) / s + 1)
  else none

/-- The state of a `torch.nn.Conv1d` module (used directly for the kernel-width-one
convolution inside `PositionFeedForward`, and via `ConvLayer` for dilated
convolutions).  `weight` has shape `(out_channels, in_channels / groups, kernel_size)`
and `bias` has shape `(out_channels,)`. -/
structure Conv1dM where
  in_channels : ℕ
  out_channels : ℕ
  kernel_size : ℕ
  stride : ℕ
  dilation : ℕ
  groups : ℕ
  padding : ℕ
  weight : List (List (List ℝ))
  bias : List ℝ

/-- `torch.nn.Conv1d` applied to one channel-first sample of shape
`(in_channels, L)`: returns the `(out_channels, L_out)` result, or `none` on a
channel-count mismatch or an invalid output length. -/
noncomputable def Conv1dM.applyCF (c : Conv1dM) (x : List (List ℝ)) :
    Option (List (List ℝ)) :=
  if x.length = c.in_channels then
    match convOutLen x.headI.length c.padding c.dilation c.kernel_size c.stride with
    | some lout =>
        some ((List.range c.out_channels).map (fun o =>
          (List.range lout).map (fun t =>
            c.bias.getD o 0 +
            ((List.range (c.in_channels / c.groups)).map (fun ci =>
              ((List.range c.kernel_size).map (fun j =>
                ((c.weight.getD o []).getD ci []).getD j 0 *
                  padGet (x.getD (o / (c.out_channels / c.groups) *
                      (c.in_channels / c.groups) + ci) [])
                    (((t * c.stride + j * c.dilation : ℕ) : ℤ) -
                      (c.padding : ℤ)))).sum)).sum)))
    | none => none
  else none

/-- The forward pass shared by `ConvLayer.forward` and `PositionFeedForward.forward`:
transpose each `(L, C)` sample to channel-first layout, convolve, transpose back. -/
noncomputable def convLayerForward (c : Conv1dM) : Tens3 → Option Tens3
  | [] => some []
  | s :: rest =>
    match (c.applyCF (swap12 s)).map swap12, convLayerForward c rest with
    | some y, some ys => some (y :: ys)
    | _, _ => none

/-- `ConvLayer.__init__`: takes the same arguments as `torch.nn.Conv1d` but computes
the padding as `dilation * (kernel_size - 1) // 2`.  The error cases model the
configuration errors `torch.nn.Conv1d` raises (non-positive kernel / stride /
dilation / groups, or channel counts not divisible by `groups`). -/
def ConvLayer.make (in_channels out_channels kernel_size stride dilation groups : ℕ)
    (weight : List (List (List ℝ))) (bias : List ℝ) : Except String Conv1dM :=
  if kernel_size = 0 ∨ stride = 0 ∨ dilation = 0 ∨ groups = 0 then
    .error "kernel size, stride, dilation and groups must be positive"
  else if ¬ (groups ∣ in_channels ∧ groups ∣ out_channels) then
    .error "in_channels and out_channels must be divisible by groups"
  else
    .ok { in_channels, out_channels, kernel_size, stride, dilation, groups,
          padding := dilation * (kernel_size - 1) / 2, weight, bias }

/-- `PositionFeedForward.__init__`: a kernel-width-one convolution from `d_in` to
`d_out` channels (no error cases arise from this configuration). -/
def PositionFeedForward.make (d_in d_out : ℕ) (weight : List (List (List ℝ)))
    (bias : List ℝ) : Conv1dM :=
  { in_channels := d_in, out_channels := d_out, kernel_size := 1, stride := 1,
    dilation := 1, groups := 1, padding := 0, weight, bias }

/-- The state of a `torch.nn.LayerNorm` module over a final axis of size `dim`. -/
structure LayerNormM where
  dim : ℕ
  g : List ℝ
  b : List ℝ

/-- The default `eps` of `torch.nn.LayerNorm`. -/
noncomputable def lnEps : ℝ := 1 / 100000

/-- `torch.nn.LayerNorm` on one vector: checks that the normalised axis has the
expected size, then standardises with the biased variance and applies the learned
elementwise affine transform. -/
noncomputable def lnVec (ln : LayerNormM) (v : List ℝ) : Option (List ℝ) :=
  if v.length = ln.dim then
    some ((List.range ln.dim).map (fun i =>
      (v.getD i 0 - v.sum / ln.dim) /
        Real.sqrt ((v.map (fun x => (x - v.sum / ln.dim) ^ 2)).sum / ln.dim + lnEps) *
        ln.g.getD i 0 + ln.b.getD i 0))
  else none

/-- Sequences an option-valued map over a list, failing when any element fails;
models applying a torch module to every sample / position of a batch. -/
def mapOpt {α β : Type _} (f : α → Option β) : List α → Option (List β)
  | [] => some []
  | a :: l =>
    match f a, mapOpt f l with
    | some b, some bs => some (b :: bs)
    | _, _ => none

/-- A layer norm applied to a rank-2 tensor (one vector per row). -/
noncomputable def lnMat (ln : LayerNormM) (m : Mat) : Option Mat :=
  mapOpt (lnVec ln) m

/-- A layer norm applied to a rank-3 tensor (one vector per position). -/
noncomputable def lnTens3 (ln : LayerNormM) (t : Tens3) : Option Tens3 :=
  mapOpt (mapOpt (lnVec ln)) t

/-- The standard normal cumulative distribution function, as used by the exact
(erf-based) `torch.nn.GELU`. -/
noncomputable def normalCdf (x : ℝ) : ℝ :=
  ∫ t in Set.Iic x, Real.exp (-(t ^ 2) / 2) / Real.sqrt (2 * Real.pi)

/-- `torch.nn.GELU` with its default exact formulation. -/
noncomputable def gelu (x : ℝ) : ℝ := x * normalCdf x

/-- GELU applied elementwise to a rank-3 tensor. -/
noncomputable def geluT (t : Tens3) : Tens3 :=
  t.map (fun s => s.map (fun r => r.map gelu))

/-- `torch.nn.functional.sigmoid`. -/
noncomputable def sigmoid (x : ℝ) : ℝ := 1 / (1 + Real.exp (-x))

/-- One row of `torch.nn.functional.softmax`. -/
noncomputable def softmaxRow (v : List ℝ) : List ℝ :=
  v.map (fun x => Real.exp x / (v.map Real.exp).sum)

/-- `torch.nn.functional.softmax` with the implicit-dimension default: on a rank-2
tensor, `torch._get_softmax_dim` selects dimension 1, so the softmax is taken
along each row. -/
noncomputable def softmax2d (m : Mat) : Mat := m.map softmaxRow

/-- `torch.mean(x, dim=1)` on a rank-3 tensor: averages over the position axis,
yielding one channel vector per sample. -/
noncomputable def meanDim1 (t : Tens3) : Mat :=
  t.map (fun s =>
    (List.range s.headI.length).map (fun c =>
      (s.map (fun r => r.getD c 0)).sum / (s.length : ℝ)))

/-- The shape of a rank-3 tensor, read off its leading elements as torch stores it. -/
def bshape (t : Tens3) : ℕ × ℕ × ℕ := (t.length, t.headI.length, t.headI.headI.length)

/-- Broadcasting of one axis under torch's rules: sizes must agree or one must be 1. -/
def bcDim (a b : ℕ) : Option ℕ :=
  if a = b then some a else if a = 1 then some b else if b = 1 then some a else none

/-- An element read for broadcasting: an axis of size one is always indexed at 0. -/
noncomputable def bGet (t : Tens3) (sb sl sc : ℕ) (i j k : ℕ) : ℝ :=
  ((t.getD (if sb = 1 then 0 else i) []).getD (if sl = 1 then 0 else j) []).getD
    (if sc = 1 then 0 else k) 0

/-- Elementwise addition of two rank-3 tensors under torch broadcasting; `none`
models the runtime error torch raises on non-broadcastable shapes. -/
noncomputable def broadcastAdd (x y : Tens3) : Option Tens3 :=
  match bcDim (bshape x).1 (bshape y).1, bcDim (bshape x).2.1 (bshape y).2.1,
      bcDim (bshape x).2.2 (bshape y).2.2 with
  | some bB, some bL, some bC =>
    some ((List.range bB).map (fun i => (List.range bL).map (fun j =>
      (List.range bC).map (fun k =>
        bGet x (bshape x).1 (bshape x).2.1 (bshape x).2.2 i j k +
        bGet y (bshape y).1 (bshape y).2.1 (bshape y).2.2 i j k))))
  | _, _, _ => none

/-- A list map that also passes the element index to the function. -/
def mapWithIdx {α β : Type _} (f : ℕ → α → β) : List α → List β :=
  fun l => (aux 0 l)
where
  aux : ℕ → List α → List β
    | _, [] => []
    | i, a :: l => f i a :: aux (i + 1) l

/-- `torch.nn.functional.dropout` with an explicit multiplier per coordinate: the
random Bernoulli mask divided by the keep probability is supplied as `mul`. -/
noncomputable def dropoutApply (mul : ℕ → ℕ → ℕ → ℝ) (t : Tens3) : Tens3 :=
  mapWithIdx (fun b s => mapWithIdx (fun l r => mapWithIdx (fun c v => v * mul b l c) r) s) t

/-- The state of a `ByteNetBlock` module: the constructor arguments together with the
dilated convolution and the submodules of `sequence1` / `sequence2`. -/
structure ByteNetBlockM where
  d_in : ℕ
  d_h : ℕ
  d_out : ℕ
  kernel_size : ℕ
  dilation : ℕ
  groups : ℕ
  conv : Conv1dM
  ln1 : LayerNormM
  pff1 : Conv1dM
  ln2 : LayerNormM
  ln3 : LayerNormM
  pff2 : Conv1dM

/-- The per-block weight tensors drawn from torch's seeded initialisation. -/
structure BlockWeights where
  ln1_g : List ℝ
  ln1_b : List ℝ
  pff1_w : List (List (List ℝ))
  pff1_b : List ℝ
  ln2_g : List ℝ
  ln2_b : List ℝ
  conv_w : List (List (List ℝ))
  conv_b : List ℝ
  ln3_g : List ℝ
  ln3_b : List ℝ
  pff2_w : List (List (List ℝ))
  pff2_b : List ℝ

/-- `ByteNetBlock.__init__`: builds the dilated `ConvLayer` (hidden width to hidden
width, stride 1) and the two normalise-activate-project stages. -/
def ByteNetBlock.make (d_in d_h d_out kernel_size dilation groups : ℕ)
    (w : BlockWeights) : Except String ByteNetBlockM := do
  let conv ← ConvLayer.make d_h d_h kernel_size 1 dilation groups w.conv_w w.conv_b
  .ok { d_in, d_h, d_out, kernel_size, dilation, groups, conv,
        ln1 := ⟨d_in, w.ln1_g, w.ln1_b⟩,
        pff1 := PositionFeedForward.make d_in d_h w.pff1_w w.pff1_b,
        ln2 := ⟨d_h, w.ln2_g, w.ln2_b⟩,
        ln3 := ⟨d_h, w.ln3_g, w.ln3_b⟩,
        pff2 := PositionFeedForward.make d_h d_out w.pff2_w w.pff2_b }

/-- `ByteNetBlock.forward`: `xdata + sequence2(conv(sequence1(xdata)))` where
`sequence1` is layer norm, GELU, projection to `d_h`, layer norm, GELU and
`sequence2` is layer norm, GELU, projection to `d_out`; the final sum follows
torch broadcasting. -/
noncomputable def ByteNetBlockM.forward (blk : ByteNetBlockM) (x : Tens3) :
    Option Tens3 := do
  let a ← lnTens3 blk.ln1 x
  let a ← convLayerForward blk.pff1 (geluT a)
  let a ← lnTens3 blk.ln2 a
  let a ← convLayerForward blk.conv (geluT a)
  let a ← lnTens3 blk.ln3 a
  let a ← convLayerForward blk.pff2 (geluT a)
  broadcastAdd x a

/-- Modelled from the spec: the state of the external `VanillaRFFLayer` GP head
(`classic_rffs` is not under `src/`).  Per the spec's interface section, the head is
constructed from `(in_features, RFFs, out_targets, gp_cov_momentum, gp_ridge_penalty,
likelihood, random_seed)`, produces one prediction row per representation row (of
width `out_targets`), can return a per-row variance computed from its precision
state, and updates that precision state exactly when `update_precision` is passed as
true.  The prediction, variance and update maps are abstract (the GP mathematics is
out of scope). -/
structure GPHead where
  in_features : ℕ
  rffs : ℕ
  out_targets : ℕ
  cov_momentum : ℝ
  ridge_penalty : ℝ
  likelihood : String
  random_seed : ℕ
  prec : List (List ℝ)
  predictRow : List ℝ → List ℝ
  varRow : List (List ℝ) → List ℝ → ℝ
  updateFn : List (List ℝ) → Mat → List (List ℝ)

/-- Modelled from the spec: one call of the GP head on a batch of representation
rows.  Returns the predictions, the variances when requested, and the head with its
precision state updated exactly when `update_precision` is true; `none` models the
feature-width mismatch error. -/
def GPHead.call (h : GPHead) (x : Mat) (update_precision get_var : Bool) :
    Option (Mat × Option (List ℝ) × GPHead) :=
  if x.all (fun r => r.length = h.in_features) then
    some (x.map h.predictRow,
          if get_var then some (x.map (h.varRow h.prec)) else none,
          if update_precision then { h with prec := h.updateFn h.prec x } else h)
  else none

/-- A well-formed head factory always emits prediction rows of width `out_targets`
and records its construction arguments; this is the interface contract the spec
states for the external GP-head constructor. -/
def goodHeadFactory (mk : ℕ → ℕ → ℕ → ℝ → ℝ → String → ℕ → GPHead) : Prop :=
  ∀ inf rffs ot mom ridge lik seed,
    (mk inf rffs ot mom ridge lik seed).in_features = inf ∧
    (mk inf rffs ot mom ridge lik seed).out_targets = ot ∧
    ∀ r, ((mk inf rffs ot mom ridge lik seed).predictRow r).length = ot

/-- The state of a `torch.nn.Linear` module. -/
structure LinearM where
  in_features : ℕ
  out_features : ℕ
  w : List (List ℝ)
  b : List ℝ

/-- `torch.nn.Linear` applied to a batch of rows; `none` models the shape error on a
feature-width mismatch. -/
noncomputable def LinearM.applyM (l : LinearM) (x : Mat) : Option Mat :=
  if x.all (fun r => r.length = l.in_features) then
    some (x.map (fun r =>
      (List.range l.out_features).map (fun o =>
        (List.zipWith (fun a b => a * b) (l.w.getD o []) r).sum + l.b.getD o 0)))
  else none

/-- The output head selected at construction: a plain linear layer or the GP head. -/
inductive OutLayer where
  | linear (l : LinearM) : OutLayer
  | gp (h : GPHead) : OutLayer

/-- The runtime state of a constructed `ByteNetPairedSeqs` model. -/
structure ByteNetPairedSeqsM where
  objective : String
  nclasses : ℕ
  likelihood : String
  dilations : List ℕ
  adjuster : Conv1dM
  antigen_adjuster : Option Conv1dM
  antibody_layers : List ByteNetBlockM
  antigen_layers : List ByteNetBlockM
  down_adjuster : Conv1dM
  final_lnorm : LayerNormM
  out_layer : OutLayer
  dropout : ℝ
  llgp : Bool
  training : Bool

/-- The constructor arguments of `ByteNetPairedSeqs.__init__` (`dil_factor` is an
integer per the class docstring). -/
structure Config where
  input_dim : ℕ
  hidden_dim : ℕ
  n_layers : ℕ
  kernel_size : ℕ
  dil_factor : ℤ
  rep_dim : ℕ
  dropout : ℝ
  slim : Bool
  llgp : Bool
  antigen_dim : Option ℕ
  objective : String
  num_predicted_categories : ℕ

/-- The weight tensors torch's seeded initialisation supplies to the constructor. -/
structure ModelWeights where
  adj_w : List (List (List ℝ))
  adj_b : List ℝ
  ag_adj_w : List (List (List ℝ))
  ag_adj_b : List ℝ
  ab_blocks : ℕ → BlockWeights
  ag_blocks : ℕ → BlockWeights
  down_w : List (List (List ℝ))
  down_b : List ℝ
  lnorm_g : List ℝ
  lnorm_b : List ℝ
  out_w : List (List ℝ)
  out_b : List ℝ

/-- The composite `int(np.log2(dil_factor))` from the constructor.  For
`dil_factor <= 0`, `np.log2` yields `-inf` (at zero) or `nan` (below zero) and the
`int(...)` conversion then raises `OverflowError` or `ValueError`; for positive
arguments it truncates the float logarithm, which is the floor base-2 logarithm. -/
def np_log2_int (d : ℤ) : Except String ℕ :=
  if d ≤ 0 then .error "cannot convert the logarithm of a nonpositive value to integer"
  else .ok (Nat.log2 d.toNat)

/-- The dilation schedule computed inside `ByteNetPairedSeqs.__init__`:
`dil_log2 = int(np.log2(dil_factor)) + 1` and then
`[2 ** (n % dil_log2) for n in range(n_layers)]`. -/
def dilationSchedule (n_layers : ℕ) (dil_factor : ℤ) : Except String (List ℕ) := do
  let l ← np_log2_int dil_factor
  .ok ((List.range n_layers).map (fun n => 2 ^ (n % (l + 1))))

/-- Sequences an `Except`-valued map over a list, failing on the first failure;
models building a list of submodules whose constructors can raise. -/
def mapE {α β : Type _} (f : α → Except String β) : List α → Except String (List β)
  | [] => .ok []
  | a :: l => do
    let b ← f a
    let bs ← mapE f l
    .ok (b :: bs)

/-- The objective-validation block at the top of `ByteNetPairedSeqs.__init__`
(source lines 171 to 187): maps the objective string to the head output width
`nclasses` and the likelihood string, raising on an unrecognised objective or on
multiclass with at most two categories. -/
def objectiveDispatch (objective : String) (num_predicted_categories : ℕ) :
    Except String (ℕ × String) :=
  if objective = "multiclass" then
    if num_predicted_categories ≤ 2 then
      Except.error "If running in multiclass mode, num_predicted_categories must always be > 2. If there are only two possible categories, binary classification is more appropriate."
    else Except.ok (num_predicted_categories, "multiclass")
  else if objective = "binary_classifier" then Except.ok (1, "binary_logistic")
  else if objective = "regression" then Except.ok (1, "Gaussian")
  else Except.error "Unrecognized objective supplied."

/-- `ByteNetPairedSeqs.__init__`.  The objective is validated first (exactly the
three recognised strings, and more than two categories in multiclass mode), then
the dilation schedule is computed, then the two towers and the output head are
constructed.  When `llgp` is set the head is the external GP layer, constructed
with `out_targets = 1`, `RFFs = 1024`, momentum `0.999`, ridge `1e-3` and seed
`123`; otherwise it is a linear layer with `nclasses` outputs. -/
noncomputable def ByteNetPairedSeqs.init (cfg : Config) (ws : ModelWeights)
    (mk : ℕ → ℕ → ℕ → ℝ → ℝ → String → ℕ → GPHead) :
    Except String ByteNetPairedSeqsM := do
  let nl ← objectiveDispatch cfg.objective cfg.num_predicted_categories
  let dilations ← dilationSchedule cfg.n_layers cfg.dil_factor
  let d_h := if cfg.slim then cfg.hidden_dim / 2 else cfg.hidden_dim
  let abLayers ← mapE (fun n =>
      ByteNetBlock.make cfg.hidden_dim d_h cfg.hidden_dim cfg.kernel_size
        (dilations.getD n 0) 1 (ws.ab_blocks n)) (List.range cfg.n_layers)
  let agLayers ← mapE (fun n =>
      ByteNetBlock.make cfg.hidden_dim d_h cfg.hidden_dim cfg.kernel_size
        (dilations.getD n 0) 1 (ws.ag_blocks n)) (List.range cfg.n_layers)
  Except.ok
    { objective := cfg.objective, nclasses := nl.1, likelihood := nl.2,
      dilations,
      adjuster := PositionFeedForward.make cfg.input_dim cfg.hidden_dim ws.adj_w ws.adj_b,
      antigen_adjuster := cfg.antigen_dim.map (fun ad =>
        PositionFeedForward.make ad cfg.hidden_dim ws.ag_adj_w ws.ag_adj_b),
      antibody_layers := abLayers,
      antigen_layers := agLayers,
      down_adjuster := PositionFeedForward.make cfg.hidden_dim cfg.rep_dim
        ws.down_w ws.down_b,
      final_lnorm := ⟨cfg.rep_dim, ws.lnorm_g, ws.lnorm_b⟩,
      out_layer :=
        if cfg.llgp = true then
          OutLayer.gp (mk cfg.rep_dim 1024 1 (999 / 1000) (1 / 1000) nl.2 123)
        else OutLayer.linear ⟨cfg.rep_dim, nl.1, ws.out_w, ws.out_b⟩,
      dropout := cfg.dropout, llgp := cfg.llgp, training := true }

/-- A value returned from `forward` before any variance pairing: a rank-1 tensor
(after a squeeze) or a rank-2 tensor. -/
inductive FVal where
  | r1 (v : List ℝ) : FVal
  | r2 (m : Mat) : FVal

/-- `Tensor.squeeze(1)` on a rank-2 tensor: drops the second axis exactly when its
size is 1, otherwise leaves the tensor unchanged. -/
noncomputable def squeeze1 (m : Mat) : FVal :=
  if m.all (fun r => r.length = 1) then .r1 (m.map (fun r => r.headI)) else .r2 m

/-- An elementwise map over a returned value (used for the sigmoid). -/
noncomputable def FVal.mapScalar (f : ℝ → ℝ) : FVal → FVal
  | .r1 v => .r1 (v.map f)
  | .r2 m => .r2 (m.map (fun r => r.map f))

/-- The value(s) a `forward` call returns: a single tensor, or a prediction paired
with a variance tensor. -/
inductive FRet where
  | one (v : FVal) : FRet
  | two (v : FVal) (var : List ℝ) : FRet

/-- True exactly when a `forward` return carries a variance component. -/
def FRet.hasVar : FRet → Bool
  | .one _ => false
  | .two _ _ => true

/-- Calling the stored output layer with a single argument, as the non-`llgp`
branches do: a linear layer applies directly, and a GP head called with only the
representation uses its defaulted flags. -/
noncomputable def OutLayer.callPlain : OutLayer → Mat → Option (Mat × OutLayer)
  | .linear l, x => (l.applyM x).map (fun y => (y, .linear l))
  | .gp h, x => (h.call x false false).map (fun r => (r.1, .gp r.2.2))

/-- Calling the stored output layer as `self.out_layer(x, update_precision)`, as the
`llgp` branches do.  A linear layer called with a second positional argument is a
`TypeError`, modelled as `none`. -/
noncomputable def OutLayer.callUpdate : OutLayer → Mat → Bool → Option (Mat × OutLayer)
  | .linear _, _, _ => none
  | .gp h, x, up => (h.call x up false).map (fun r => (r.1, .gp r.2.2))

/-- Calling the stored output layer as
`preds, var = self.out_layer(x, get_var = True)`.  A linear layer does not accept
the keyword and a single tensor cannot unpack into a pair, both modelled as `none`. -/
noncomputable def OutLayer.callVar : OutLayer → Mat → Option (Mat × List ℝ × OutLayer)
  | .linear _, _ => none
  | .gp h, x =>
    match h.call x false true with
    | some (preds, some var, h2) => some (preds, var, .gp h2)
    | _ => none

/-- The stack of residual blocks inside `forward`, with the per-layer dropout
applied after each block exactly when the configured rate is positive and the
module is in training mode.  The first argument of `mask` is the layer index. -/
noncomputable def runLayers (dropout : ℝ) (training : Bool)
    (mask : ℕ → ℕ → ℕ → ℕ → ℝ) : List ByteNetBlockM → ℕ → Tens3 → Option Tens3
  | [], _, x => some x
  | blk :: rest, i, x => do
    let y ← blk.forward x
    runLayers dropout training mask rest (i + 1)
      (if 0 < dropout ∧ training = true then dropoutApply (mask i) y else y)

/-- The encoder tower inside `ByteNetPairedSeqs.forward` (source lines 260 to 268):
the channel adjuster, the antibody residual blocks with optional dropout, the
down-projection, then the mean over the position axis followed by the final layer
norm, yielding one pooled representation row per sample. -/
noncomputable def ByteNetPairedSeqsM.encode (m : ByteNetPairedSeqsM)
    (mask : ℕ → ℕ → ℕ → ℕ → ℝ) (x_antibody : Tens3) : Option Mat := do
  let x1 ← convLayerForward m.adjuster x_antibody
  let x2 ← runLayers m.dropout m.training mask m.antibody_layers 0 x1
  let x3 ← convLayerForward m.down_adjuster x2
  lnMat m.final_lnorm (meanDim1 x3)

/-- The objective-dispatch tail of `ByteNetPairedSeqs.forward` (source lines 270 to
294): selects the head call and activation from the stored objective and `llgp`
flag.  The returned model carries the GP head precision state after the call (torch
mutates the module in place); every other branch leaves the model unchanged.  The
final `none` fallthrough models the defensive `RuntimeError` for an unrecognised
objective. -/
noncomputable def ByteNetPairedSeqsM.headDispatch (m : ByteNetPairedSeqsM)
    (rep : Mat) (update_precision get_var : Bool) :
    Option (FRet × ByteNetPairedSeqsM) :=
  if m.objective = "regression" then
    if m.llgp = true then
      if get_var = true then do
        let r ← m.out_layer.callVar rep
        some (FRet.two (squeeze1 r.1) r.2.1, { m with out_layer := r.2.2 })
      else do
        let r ← m.out_layer.callUpdate rep update_precision
        some (FRet.one (squeeze1 r.1), { m with out_layer := r.2 })
    else do
      let r ← m.out_layer.callPlain rep
      some (FRet.one (squeeze1 r.1), { m with out_layer := r.2 })
  else if m.objective = "binary_classifier" then do
    let r ← (if m.llgp = true then m.out_layer.callUpdate rep update_precision
             else m.out_layer.callPlain rep)
    some (FRet.one ((squeeze1 r.1).mapScalar sigmoid), { m with out_layer := r.2 })
  else if m.objective = "multiclass" then do
    let r ← (if m.llgp = true then m.out_layer.callUpdate rep update_precision
             else m.out_layer.callPlain rep)
    some (FRet.one (FVal.r2 (softmax2d r.1)), { m with out_layer := r.2 })
  else none

/-- `ByteNetPairedSeqs.forward`: the encoder tower followed by the objective
dispatch. -/
noncomputable def ByteNetPairedSeqsM.forward (m : ByteNetPairedSeqsM)
    (mask : ℕ → ℕ → ℕ → ℕ → ℝ) (x_antibody : Tens3)
    (update_precision get_var : Bool) : Option (FRet × ByteNetPairedSeqsM) := do
  let rep ← m.encode mask x_antibody
  m.headDispatch rep update_precision get_var

/-- `ByteNetPairedSeqs.predict`: switches to evaluation mode, converts the numpy
input (the identity in this idealisation), calls `forward`, and unpacks a
`(prediction, variance)` pair exactly when `llgp`, `get_var` and the regression
objective all hold. -/
noncomputable def ByteNetPairedSeqsM.predict (m : ByteNetPairedSeqsM)
    (mask : ℕ → ℕ → ℕ → ℕ → ℝ) (x : Tens3) (get_var : Bool) :
    Option (FRet × ByteNetPairedSeqsM) :=
  let me := { m with training := false }
  if me.llgp = true ∧ get_var = true ∧ me.objective = "regression" then
    match me.forward mask x false true with
    | some (FRet.two v var, m2) => some (FRet.two v var, m2)
    | _ => none
  else
    me.forward mask x false false

/-- Well-formedness of a rank-2 tensor of shape `(a, b)`. -/
def wf2 (a b : ℕ) (m : Mat) : Prop :=
  m.length = a ∧ ∀ r ∈ m, r.length = b

/-- Well-formedness of a rank-3 tensor of shape `(a, b, c)`. -/
def wf3 (a b c : ℕ) (t : Tens3) : Prop :=
  t.length = a ∧ ∀ s ∈ t, wf2 b c s

/-- A convolution module configured the way `PositionFeedForward` builds it. -/
def isPff (d_in d_out : ℕ) (c : Conv1dM) : Prop :=
  c.in_channels = d_in ∧ c.out_channels = d_out ∧ c.kernel_size = 1 ∧
  c.stride = 1 ∧ c.dilation = 1 ∧ c.padding = 0

/-- A convolution module configured the way `ConvLayer` builds it at stride 1
with the automatic padding. -/
def isConvLayer (d_in d_out k dil : ℕ) (c : Conv1dM) : Prop :=
  c.in_channels = d_in ∧ c.out_channels = d_out ∧ c.kernel_size = k ∧
  c.stride = 1 ∧ c.dilation = dil ∧ c.padding = dil * (k - 1) / 2

/-- The layer configuration `ByteNetBlock.__init__` establishes. -/
def blockShaped (d_in d_h d_out k dil : ℕ) (blk : ByteNetBlockM) : Prop :=
  blk.ln1.dim = d_in ∧ isPff d_in d_h blk.pff1 ∧ blk.ln2.dim = d_h ∧
  isConvLayer d_h d_h k dil blk.conv ∧ blk.ln3.dim = d_h ∧
  isPff d_h d_out blk.pff2

/-- A trivial dropout multiplier (every coordinate kept with unit scale), used for
concrete evaluations. -/
noncomputable def mask0 : ℕ → ℕ → ℕ → ℕ → ℝ := fun _ _ _ _ => 1

/-- Concrete per-block weights for the evaluations below (shapes sized for
one-channel blocks; the dilated kernel is two taps wide). -/
noncomputable def bw0 : BlockWeights :=
  { ln1_g := [1], ln1_b := [0], pff1_w := [[[1]]], pff1_b := [0],
    ln2_g := [1], ln2_b := [0], conv_w := [[[1, 1]]], conv_b := [0],
    ln3_g := [1], ln3_b := [0], pff2_w := [[[1]]], pff2_b := [0] }

/-- Concrete model weights for the evaluations below. -/
noncomputable def wsW : ModelWeights :=
  { adj_w := [[[1]]], adj_b := [0], ag_adj_w := [[[1]]], ag_adj_b := [0],
    ab_blocks := fun _ => bw0, ag_blocks := fun _ => bw0,
    down_w := [[[1]]], down_b := [0], lnorm_g := [1], lnorm_b := [0],
    out_w := [[1]], out_b := [0] }

/-- A concrete head factory satisfying the spec contract: it records its
construction arguments and emits zero predictions of width `out_targets`. -/
noncomputable def mk0 : ℕ → ℕ → ℕ → ℝ → ℝ → String → ℕ → GPHead :=
  fun inf rffs ot mom ridge lik seed =>
    { in_features := inf, rffs := rffs, out_targets := ot, cov_momentum := mom,
      ridge_penalty := ridge, likelihood := lik, random_seed := seed,
      prec := [], predictRow := fun _ => List.replicate ot 0,
      varRow := fun _ _ => 0, updateFn := fun p _ => p }

/-- The shape of a returned value: the length of a rank-1 tensor, or the leading
dimensions of a rank-2 tensor. -/
def FVal.shape : FVal → ℕ ⊕ ℕ × ℕ
  | .r1 v => .inl v.length
  | .r2 m => .inr (m.length, m.headI.length)

/-- The shape of the value component of a `forward` return. -/
def FRet.valShape : FRet → ℕ ⊕ ℕ × ℕ
  | .one v => v.shape
  | .two v _ => v.shape

/-- A small valid regression configuration used for concrete evaluations. -/
noncomputable def cfgBase : Config :=
  { input_dim := 1, hidden_dim := 1, n_layers := 0, kernel_size := 1,
    dil_factor := 1, rep_dim := 1, dropout := 0, slim := false, llgp := false,
    antigen_dim := none, objective := "regression", num_predicted_categories := 1 }

/-- The base configuration with an invalid dilation growth factor. -/
noncomputable def cfgDil0 : Config := { cfgBase with dil_factor := 0 }

/-- A multiclass configuration with three categories and the GP head. -/
noncomputable def cfgMcGp : Config :=
  { cfgBase with
    objective := "multiclass", num_predicted_categories := 3,
    llgp := true }

/-- A multiclass configuration with three categories and the linear head. -/
noncomputable def cfgMcLin : Config :=
  { cfgBase with objective := "multiclass", num_predicted_categories := 3 }

/-- A regression configuration with the GP head. -/
noncomputable def cfgGp : Config := { cfgBase with llgp := true }

/-- A one-block configuration with an even kernel width. -/
noncomputable def cfgEvenK : Config := { cfgBase with kernel_size := 2, n_layers := 1 }

/-- A one-block configuration with an odd kernel width. -/
noncomputable def cfgOddK : Config := { cfgBase with n_layers := 1 }

/-- The residual stack without the dropout branch; `runLayers` computes this
whenever the configured dropout rate is not positive. -/
noncomputable def foldBlocks : List ByteNetBlockM → Tens3 → Option Tens3
  | [], x => some x
  | b :: rest, x => do
    let y ← b.forward x
    foldBlocks rest y

/-- The residual block the constructor builds for width-one channels, kernel width
one and dilation one, with weights `bw0`. -/
noncomputable def oddKBlock : ByteNetBlockM :=
  { d_in := 1, d_h := 1, d_out := 1, kernel_size := 1, dilation := 1, groups := 1,
    conv := { in_channels := 1, out_channels := 1, kernel_size := 1, stride := 1,
              dilation := 1, groups := 1, padding := 0, weight := [[[1, 1]]],
              bias := [0] },
    ln1 := ⟨1, [1], [0]⟩,
    pff1 := PositionFeedForward.make 1 1 [[[1]]] [0],
    ln2 := ⟨1, [1], [0]⟩, ln3 := ⟨1, [1], [0]⟩,
    pff2 := PositionFeedForward.make 1 1 [[[1]]] [0] }

/-- The model the constructor builds for `cfgOddK` with weights `wsW` and factory
`mk0`: a one-block linear-head regression model. -/
noncomputable def oddKModel : ByteNetPairedSeqsM :=
  { objective := "regression", nclasses := 1, likelihood := "Gaussian",
    dilations := [1],
    adjuster := PositionFeedForward.make 1 1 [[[1]]] [0],
    antigen_adjuster := none,
    antibody_layers := [oddKBlock], antigen_layers := [oddKBlock],
    down_adjuster := PositionFeedForward.make 1 1 [[[1]]] [0],
    final_lnorm := ⟨1, [1], [0]⟩,
    out_layer := .linear ⟨1, 1, [[1]], [0]⟩,
    dropout := 0, llgp := false, training := true }

/-- A concrete GP-headed regression model used for witness evaluations (it is what
the constructor builds for `cfgGp` with weights `wsW` and factory `mk0`). -/
noncomputable def wGPModel : ByteNetPairedSeqsM :=
  { objective := "regression", nclasses := 1, likelihood := "Gaussian",
    dilations := [], adjuster := PositionFeedForward.make 1 1 [[[1]]] [0],
    antigen_adjuster := none, antibody_layers := [], antigen_layers := [],
    down_adjuster := PositionFeedForward.make 1 1 [[[1]]] [0],
    final_lnorm := ⟨1, [1], [0]⟩,
    out_layer := .gp (mk0 1 1024 1 (999 / 1000) (1 / 1000) "Gaussian" 123),
    dropout := 0, llgp := true, training := true }

theorem except_bind_ok_iff {α β : Type _} {x : Except String α}
    {f : α → Except String β} {b : β} :
    x >>= f = .ok b ↔ ∃ a, x = .ok a ∧ f a = .ok b := by
  cases x with
  | error e => simp [Bind.bind, Except.bind]
  | ok a => simp [Bind.bind, Except.bind]

theorem except_ok_bind {α β : Type _} {x : Except String α}
    {f : α → Except String β} {a : α} (h : x = .ok a) : x >>= f = f a := by
  subst h; rfl

theorem except_error_bind {α β : Type _} {x : Except String α}
    {f : α → Except String β} {e : String} (h : x = .error e) :
    x >>= f = .error e := by
  subst h; rfl

theorem np_log2_int_pos {d : ℤ} (hd : 1 ≤ d) :
    np_log2_int d = .ok (Nat.log2 d.toNat) := by
  unfold np_log2_int
  rw [if_neg (by omega)]

theorem dilationSchedule_pos {n : ℕ} {d : ℤ} (hd : 1 ≤ d) :
    dilationSchedule n d =
      .ok ((List.range n).map (fun i => 2 ^ (i % (Nat.log2 d.toNat + 1)))) := by
  unfold dilationSchedule
  rw [except_ok_bind (np_log2_int_pos hd)]

theorem dilationSchedule_nonpos {n : ℕ} {d : ℤ} (hd : d < 1) :
    dilationSchedule n d =
      .error "cannot convert the logarithm of a nonpositive value to integer" := by
  unfold dilationSchedule
  rw [except_error_bind (x := np_log2_int d)]
  unfold np_log2_int
  rw [if_pos (by omega)]

/-- C2: for every `n_layers >= 1` and integer `dil_factor >= 1`, the dilation
schedule computed at construction is the length-`n_layers` list whose `n`-th
element is `2 ^ (n % period)` with `period = floor(log2 dil_factor) + 1`; every
element is a power of two and every element is at most `dil_factor`. -/
theorem dilation_schedule_correct (n_layers : ℕ) (dil_factor : ℤ)
    (hn : 1 ≤ n_layers) (hd : 1 ≤ dil_factor) :
    ∃ ds : List ℕ, dilationSchedule n_layers dil_factor = .ok ds ∧
      ds.length = n_layers ∧
      (∀ n, n < n_layers →
        ds.getD n 0 = 2 ^ (n % (Nat.log2 dil_factor.toNat + 1))) ∧
      (∀ x ∈ ds, ∃ e : ℕ, x = 2 ^ e) ∧
      (∀ x ∈ ds, (x : ℤ) ≤ dil_factor) := by
  refine ⟨_, dilationSchedule_pos hd, ?_, ?_, ?_, ?_⟩
  · simp
  · intro n hn2
    rw [List.getD_eq_getElem?_getD, List.getElem?_map, List.getElem?_range hn2]
    rfl
  · intro x hx
    rcases List.mem_map.mp hx with ⟨n, _, rfl⟩
    exact ⟨_, rfl⟩
  · intro x hx
    rcases List.mem_map.mp hx with ⟨n, _, rfl⟩
    have h1 : n % (Nat.log2 dil_factor.toNat + 1) ≤ Nat.log2 dil_factor.toNat :=
      Nat.lt_succ_iff.mp (Nat.mod_lt _ (Nat.succ_pos _))
    have h2 : (2 : ℕ) ^ (n % (Nat.log2 dil_factor.toNat + 1)) ≤ dil_factor.toNat := by
      calc (2 : ℕ) ^ (n % (Nat.log2 dil_factor.toNat + 1))
          ≤ 2 ^ Nat.log2 dil_factor.toNat := Nat.pow_le_pow_right (by omega) h1
        _ = 2 ^ Nat.log 2 dil_factor.toNat := by rw [Nat.log2_eq_log_two]
        _ ≤ dil_factor.toNat := Nat.pow_log_le_self 2 (by omega)
    have h4 : (dil_factor.toNat : ℤ) = dil_factor := Int.toNat_of_nonneg (by omega)
    rw [← h4]
    exact_mod_cast h2

/-- Witness for C2 at `n_layers = 3`, `dil_factor = 4`. -/
theorem dilation_schedule_correct_witness :
    (1 ≤ 3 ∧ (1 : ℤ) ≤ 4) ∧
    (∃ ds : List ℕ, dilationSchedule 3 4 = .ok ds ∧
      ds.length = 3 ∧
      (∀ n, n < 3 → ds.getD n 0 = 2 ^ (n % (Nat.log2 (4 : ℤ).toNat + 1))) ∧
      (∀ x ∈ ds, ∃ e : ℕ, x = 2 ^ e) ∧
      (∀ x ∈ ds, (x : ℤ) ≤ 4)) :=
  ⟨⟨by decide, by decide⟩,
   dilation_schedule_correct 3 4 (by decide) (by decide)⟩

theorem except_bind_ok2 {α β : Type _} (a : α) (f : α → Except String β) :
    (Except.ok a >>= f) = f a := rfl

theorem except_bind_error2 {α β : Type _} (e : String) (f : α → Except String β) :
    ((Except.error e : Except String α) >>= f) = .error e := rfl

/-- C8: for every integer `dil_factor < 1`, constructing a `ByteNetPairedSeqs`
model fails with an error raised during construction, for any `n_layers` (the
`int(np.log2(dil_factor))` conversion raises). -/
theorem dil_factor_lt_one_fails (cfg : Config) (ws : ModelWeights)
    (mk : ℕ → ℕ → ℕ → ℝ → ℝ → String → ℕ → GPHead) (hd : cfg.dil_factor < 1) :
    ∃ e, ByteNetPairedSeqs.init cfg ws mk = .error e := by
  unfold ByteNetPairedSeqs.init objectiveDispatch
  by_cases h1 : cfg.objective = "multiclass"
  · by_cases h2 : cfg.num_predicted_categories ≤ 2
    · simp only [if_pos h1, if_pos h2, except_bind_error2]
      exact ⟨_, rfl⟩
    · simp only [if_pos h1, if_neg h2, except_bind_ok2,
        dilationSchedule_nonpos hd, except_bind_error2]
      exact ⟨_, rfl⟩
  · by_cases h3 : cfg.objective = "binary_classifier"
    · simp only [if_neg h1, if_pos h3, except_bind_ok2,
        dilationSchedule_nonpos hd, except_bind_error2]
      exact ⟨_, rfl⟩
    · by_cases h4 : cfg.objective = "regression"
      · simp only [if_neg h1, if_neg h3, if_pos h4, except_bind_ok2,
          dilationSchedule_nonpos hd, except_bind_error2]
        exact ⟨_, rfl⟩
      · simp only [if_neg h1, if_neg h3, if_neg h4, except_bind_error2]
        exact ⟨_, rfl⟩

/-- Witness for C8 at `dil_factor = 0`. -/
theorem dil_factor_lt_one_fails_witness :
    cfgDil0.dil_factor < 1 ∧
    ∃ e, ByteNetPairedSeqs.init cfgDil0 wsW mk0 = .error e :=
  ⟨by decide, dil_factor_lt_one_fails cfgDil0 wsW mk0 (by decide)⟩

theorem mapE_ok_exists {α β : Type _} {f : α → Except String β} {l : List α}
    (h : ∀ a ∈ l, ∃ b, f a = .ok b) : ∃ bs, mapE f l = .ok bs := by
  induction l with
  | nil => exact ⟨[], rfl⟩
  | cons a l ih =>
    rcases h a (List.mem_cons_self a l) with ⟨b, hb⟩
    rcases ih (fun x hx => h x (List.mem_cons_of_mem a hx)) with ⟨bs, hbs⟩
    refine ⟨b :: bs, ?_⟩
    unfold mapE
    simp only [except_ok_bind hb, except_ok_bind hbs]

theorem byteNetBlock_make_ok (d_in d_h d_out k dil : ℕ) (w : BlockWeights)
    (hk : k ≠ 0) (hdil : dil ≠ 0) :
    ∃ blk, ByteNetBlock.make d_in d_h d_out k dil 1 w = .ok blk ∧
      blockShaped d_in d_h d_out k dil blk := by
  unfold ByteNetBlock.make ConvLayer.make
  rw [if_neg (by simp [hk, hdil]), if_neg (by simp)]
  refine ⟨_, rfl, ?_⟩
  simp [blockShaped, isPff, isConvLayer, PositionFeedForward.make]

theorem dils_getD_pos {n nl p : ℕ} (hn : n < nl) :
    ((List.range nl).map (fun i => 2 ^ (i % p))).getD n 0 = 2 ^ (n % p) := by
  rw [List.getD_eq_getElem?_getD, List.getElem?_map, List.getElem?_range hn]
  rfl

/-- C3: with the rest of the configuration valid (positive dilation growth factor
and kernel size), construction succeeds exactly when the objective string is one of
the three recognised ones and a multiclass objective comes with more than two
categories; in every other case an error is raised at construction time. -/
theorem objective_validation_iff (cfg : Config) (ws : ModelWeights)
    (mk : ℕ → ℕ → ℕ → ℝ → ℝ → String → ℕ → GPHead)
    (hd : 1 ≤ cfg.dil_factor) (hk : 1 ≤ cfg.kernel_size) :
    (∃ M, ByteNetPairedSeqs.init cfg ws mk = .ok M) ↔
      ((cfg.objective = "regression" ∨ cfg.objective = "binary_classifier" ∨
          cfg.objective = "multiclass") ∧
        ¬ (cfg.objective = "multiclass" ∧ cfg.num_predicted_categories ≤ 2)) := by
  have hblocks : ∀ wsf : ℕ → BlockWeights, ∀ a ∈ List.range cfg.n_layers,
      ∃ blk, ByteNetBlock.make cfg.hidden_dim
        (if cfg.slim then cfg.hidden_dim / 2 else cfg.hidden_dim) cfg.hidden_dim
        cfg.kernel_size
        (((List.range cfg.n_layers).map
            (fun i => 2 ^ (i % (Nat.log2 cfg.dil_factor.toNat + 1)))).getD a 0) 1
        (wsf a) = .ok blk := by
    intro wsf a ha
    rw [dils_getD_pos (List.mem_range.mp ha)]
    rcases byteNetBlock_make_ok cfg.hidden_dim
        (if cfg.slim then cfg.hidden_dim / 2 else cfg.hidden_dim) cfg.hidden_dim
        cfg.kernel_size _ (wsf a) (by omega)
        (Nat.pow_pos (show 0 < 2 by omega)).ne' with ⟨blk, hblk, _⟩
    exact ⟨blk, hblk⟩
  constructor
  · rintro ⟨M, hM⟩
    unfold ByteNetPairedSeqs.init objectiveDispatch at hM
    by_cases h1 : cfg.objective = "multiclass"
    · by_cases h2 : cfg.num_predicted_categories ≤ 2
      · rw [if_pos h1, if_pos h2, except_bind_error2] at hM
        exact absurd hM (by simp)
      · exact ⟨Or.inr (Or.inr h1), fun hc => h2 hc.2⟩
    · by_cases h3 : cfg.objective = "binary_classifier"
      · exact ⟨Or.inr (Or.inl h3), fun hc => h1 hc.1⟩
      · by_cases h4 : cfg.objective = "regression"
        · exact ⟨Or.inl h4, fun hc => h1 hc.1⟩
        · rw [if_neg h1, if_neg h3, if_neg h4, except_bind_error2] at hM
          exact absurd hM (by simp)
  · rintro ⟨hvalid, hnot⟩
    rcases mapE_ok_exists (hblocks ws.ab_blocks) with ⟨ab, hab⟩
    rcases mapE_ok_exists (hblocks ws.ag_blocks) with ⟨ag, hag⟩
    unfold ByteNetPairedSeqs.init objectiveDispatch
    by_cases h1 : cfg.objective = "multiclass"
    · have h2 : ¬ cfg.num_predicted_categories ≤ 2 := fun hc => hnot ⟨h1, hc⟩
      simp only [if_pos h1, if_neg h2, except_bind_ok2, dilationSchedule_pos hd,
        except_ok_bind hab, except_ok_bind hag]
      exact ⟨_, rfl⟩
    · by_cases h3 : cfg.objective = "binary_classifier"
      · simp only [if_neg h1, if_pos h3, except_bind_ok2, dilationSchedule_pos hd,
          except_ok_bind hab, except_ok_bind hag]
        exact ⟨_, rfl⟩
      · have h4 : cfg.objective = "regression" := by tauto
        simp only [if_neg h1, if_neg h3, if_pos h4, except_bind_ok2,
          dilationSchedule_pos hd, except_ok_bind hab, except_ok_bind hag]
        exact ⟨_, rfl⟩

/-- Witness for C3 at a small valid regression configuration. -/
theorem objective_validation_iff_witness :
    ((1 : ℤ) ≤ cfgBase.dil_factor ∧ 1 ≤ cfgBase.kernel_size) ∧
    ((∃ M, ByteNetPairedSeqs.init cfgBase wsW mk0 = .ok M) ↔
      ((cfgBase.objective = "regression" ∨ cfgBase.objective = "binary_classifier" ∨
          cfgBase.objective = "multiclass") ∧
        ¬ (cfgBase.objective = "multiclass" ∧
            cfgBase.num_predicted_categories ≤ 2))) :=
  ⟨⟨by decide, by decide⟩,
   objective_validation_iff cfgBase wsW mk0 (by decide) (by decide)⟩

theorem option_some_bind {α β : Type _} (a : α) (f : α → Option β) :
    (some a >>= f) = f a := rfl

theorem option_none_bind {α β : Type _} (f : α → Option β) :
    ((none : Option α) >>= f) = none := rfl

theorem option_map_bind {α β γ : Type _} (x : Option α) (f : α → Option β)
    (g : β → γ) : (x >>= f).map g = x >>= fun a => (f a).map g := by
  cases x <;> rfl

theorem option_bind_eq_some_iff {α β : Type _} {x : Option α} {f : α → Option β}
    {b : β} : (x >>= f) = some b ↔ ∃ a, x = some a ∧ f a = some b := by
  cases x <;> simp [option_some_bind, option_none_bind]

theorem runLayers_no_dropout {dr : ℝ} (hdr : ¬ 0 < dr) (tr : Bool)
    (mask : ℕ → ℕ → ℕ → ℕ → ℝ) (blks : List ByteNetBlockM) :
    ∀ (i : ℕ) (x : Tens3), runLayers dr tr mask blks i x = foldBlocks blks x := by
  induction blks with
  | nil => intro i x; rfl
  | cons b rest ih =>
    intro i x
    unfold runLayers foldBlocks
    simp only [if_neg (fun hc : 0 < dr ∧ tr = true => hdr hc.1), ih]

theorem headDispatch_fst (m1 m2 : ByteNetPairedSeqsM)
    (hobj : m2.objective = m1.objective) (hllgp : m2.llgp = m1.llgp)
    (hout : m2.out_layer = m1.out_layer) (rep : Mat) (up gv : Bool) :
    (m2.headDispatch rep up gv).map Prod.fst =
      (m1.headDispatch rep up gv).map Prod.fst := by
  unfold ByteNetPairedSeqsM.headDispatch
  rw [hobj, hllgp, hout]
  split_ifs <;>
    simp only [option_map_bind, Option.map_some', Option.map_none']

theorem forward_fst_congr (m1 m2 : ByteNetPairedSeqsM)
    (hobj : m2.objective = m1.objective) (hadj : m2.adjuster = m1.adjuster)
    (hab : m2.antibody_layers = m1.antibody_layers)
    (hdown : m2.down_adjuster = m1.down_adjuster)
    (hln : m2.final_lnorm = m1.final_lnorm) (hout : m2.out_layer = m1.out_layer)
    (hdrop : m2.dropout = m1.dropout) (hllgp : m2.llgp = m1.llgp)
    (htr : m2.training = m1.training) (mask : ℕ → ℕ → ℕ → ℕ → ℝ) (x : Tens3)
    (up gv : Bool) :
    (m2.forward mask x up gv).map Prod.fst =
      (m1.forward mask x up gv).map Prod.fst := by
  have he : m2.encode mask x = m1.encode mask x := by
    unfold ByteNetPairedSeqsM.encode
    rw [hadj, hab, hdown, hln, hdrop, htr]
  unfold ByteNetPairedSeqsM.forward
  rw [he, option_map_bind, option_map_bind]
  cases henc : m1.encode mask x with
  | none => rfl
  | some rep =>
    simp only [option_some_bind]
    exact headDispatch_fst m1 m2 hobj hllgp hout rep up gv

theorem predict_fst_congr (m1 m2 : ByteNetPairedSeqsM)
    (hobj : m2.objective = m1.objective) (hadj : m2.adjuster = m1.adjuster)
    (hab : m2.antibody_layers = m1.antibody_layers)
    (hdown : m2.down_adjuster = m1.down_adjuster)
    (hln : m2.final_lnorm = m1.final_lnorm) (hout : m2.out_layer = m1.out_layer)
    (hdrop : m2.dropout = m1.dropout) (hllgp : m2.llgp = m1.llgp)
    (mask : ℕ → ℕ → ℕ → ℕ → ℝ) (x : Tens3) (gv : Bool) :
    (m2.predict mask x gv).map Prod.fst = (m1.predict mask x gv).map Prod.fst := by
  have hf := forward_fst_congr { m1 with training := false }
    { m2 with training := false } hobj hadj hab hdown hln hout hdrop hllgp rfl
    mask x false
  unfold ByteNetPairedSeqsM.predict
  by_cases hc : m1.llgp = true ∧ gv = true ∧ m1.objective = "regression"
  · have h2c : ({ m2 with training := false } : ByteNetPairedSeqsM).llgp = true ∧
        gv = true ∧
        ({ m2 with training := false } : ByteNetPairedSeqsM).objective =
          "regression" := ⟨hllgp.trans hc.1, hc.2.1, hobj.trans hc.2.2⟩
    rw [if_pos h2c, if_pos hc]
    cases h1f : ({ m1 with training := false } : ByteNetPairedSeqsM).forward
        mask x false true with
    | none =>
      have h2f : ({ m2 with training := false } : ByteNetPairedSeqsM).forward
          mask x false true = none := by
        have h3 := hf true
        rw [h1f] at h3
        cases h4 : ({ m2 with training := false } : ByteNetPairedSeqsM).forward
            mask x false true with
        | none => rfl
        | some pr => rw [h4] at h3; simp at h3
      rw [h2f]
    | some pr =>
      obtain ⟨r1, mm1⟩ := pr
      have h3 := hf true
      rw [h1f] at h3
      cases h4 : ({ m2 with training := false } : ByteNetPairedSeqsM).forward
          mask x false true with
      | none => rw [h4] at h3; simp at h3
      | some pr2 =>
        obtain ⟨r2, mm2⟩ := pr2
        rw [h4] at h3
        simp only [Option.map_some', Option.some.injEq] at h3
        cases h3
        cases r1 <;> rfl
  · have h2c : ¬ (({ m2 with training := false } : ByteNetPairedSeqsM).llgp = true ∧
        gv = true ∧
        ({ m2 with training := false } : ByteNetPairedSeqsM).objective =
          "regression") := by
      intro hcc
      exact hc ⟨hllgp.symm.trans hcc.1, hcc.2.1, hobj.symm.trans hcc.2.2⟩
    rw [if_neg h2c, if_neg hc]
    exact hf false

/-- C9: the antibody-side `forward` and `predict` outputs do not depend on the
antigen adjuster or the antigen residual blocks: replacing those two components by
any others leaves the returned prediction (and variance) unchanged on every input
and flag combination, because the secondary tower is never invoked. -/
theorem antigen_tower_unused (m : ByteNetPairedSeqsM) (aadj : Option Conv1dM)
    (alayers : List ByteNetBlockM) (mask : ℕ → ℕ → ℕ → ℕ → ℝ) (x : Tens3)
    (up gv gv2 : Bool) :
    (({ m with antigen_adjuster := aadj, antigen_layers := alayers }
        : ByteNetPairedSeqsM).forward mask x up gv).map Prod.fst =
      (m.forward mask x up gv).map Prod.fst ∧
    (({ m with antigen_adjuster := aadj, antigen_layers := alayers }
        : ByteNetPairedSeqsM).predict mask x gv2).map Prod.fst =
      (m.predict mask x gv2).map Prod.fst :=
  ⟨forward_fst_congr m { m with antigen_adjuster := aadj, antigen_layers := alayers }
      rfl rfl rfl rfl rfl rfl rfl rfl rfl mask x up gv,
   predict_fst_congr m { m with antigen_adjuster := aadj, antigen_layers := alayers }
      rfl rfl rfl rfl rfl rfl rfl rfl mask x gv2⟩

theorem gphead_call_false_keeps (h : GPHead) (x : Mat) (gv : Bool)
    (res : Mat × Option (List ℝ) × GPHead)
    (hc : GPHead.call h x false gv = some res) : res.2.2 = h := by
  unfold GPHead.call at hc
  split at hc
  · cases hc; rfl
  · cases hc

theorem callVar_keeps (o : OutLayer) (rep : Mat) (res : Mat × List ℝ × OutLayer)
    (hc : OutLayer.callVar o rep = some res) : res.2.2 = o := by
  cases o with
  | linear l => exact absurd hc (by simp [OutLayer.callVar])
  | gp hgp =>
    simp only [OutLayer.callVar] at hc
    cases hcall2 : GPHead.call hgp rep false true with
    | none => rw [hcall2] at hc; exact absurd hc (by simp)
    | some trip =>
      obtain ⟨preds, varOpt, h2⟩ := trip
      have hkeep : (preds, varOpt, h2).2.2 = hgp :=
        gphead_call_false_keeps hgp rep true _ hcall2
      rw [hcall2] at hc
      cases varOpt with
      | none => exact absurd hc (by simp)
      | some var =>
        cases hc
        simp only at hkeep
        rw [hkeep]

/-- C10: a `forward` call with `get_var = True` on a GP-headed regression model
calls the head with the variance request only (`update_precision` is never
forwarded), so the whole model state — the GP head precision state included — is
unchanged, even when `update_precision = True` was supplied. -/
theorem getvar_leaves_precision (m : ByteNetPairedSeqsM)
    (mask : ℕ → ℕ → ℕ → ℕ → ℝ) (x : Tens3) (r : FRet) (m2 : ByteNetPairedSeqsM)
    (hllgp : m.llgp = true) (hobj : m.objective = "regression")
    (h : m.forward mask x true true = some (r, m2)) : m2 = m := by
  unfold ByteNetPairedSeqsM.forward at h
  rcases option_bind_eq_some_iff.mp h with ⟨rep, _, hdisp⟩
  unfold ByteNetPairedSeqsM.headDispatch at hdisp
  rw [if_pos hobj, if_pos hllgp, if_pos rfl] at hdisp
  rcases option_bind_eq_some_iff.mp hdisp with ⟨rv, hcall, hsome⟩
  have hk : rv.2.2 = m.out_layer := callVar_keeps m.out_layer rep rv hcall
  cases hsome
  rw [hk]

/-- Witness for C10: a concrete GP regression model where the variance-requesting
call with `update_precision = True` succeeds and returns the model unchanged. -/
theorem getvar_leaves_precision_witness :
    wGPModel.llgp = true ∧ wGPModel.objective = "regression" ∧
    (∀ r m2, wGPModel.forward mask0 [[[0]]] true true = some (r, m2) →
      m2 = wGPModel) ∧
    (∃ r m2, wGPModel.forward mask0 [[[0]]] true true = some (r, m2)) :=
  ⟨rfl, rfl,
   fun r m2 h => getvar_leaves_precision wGPModel mask0 [[[0]]] r m2 rfl rfl h,
   ⟨_, _, rfl⟩⟩

theorem headDispatch_hasVar (m : ByteNetPairedSeqsM) (rep : Mat) (up gv : Bool)
    (r : FRet) (m2 : ByteNetPairedSeqsM)
    (h : m.headDispatch rep up gv = some (r, m2)) :
    r.hasVar = true ↔ (gv = true ∧ m.llgp = true ∧ m.objective = "regression") := by
  unfold ByteNetPairedSeqsM.headDispatch at h
  by_cases h1 : m.objective = "regression"
  · rw [if_pos h1] at h
    by_cases h2 : m.llgp = true
    · rw [if_pos h2] at h
      by_cases h3 : gv = true
      · rw [if_pos h3] at h
        rcases option_bind_eq_some_iff.mp h with ⟨a, _, ha⟩
        cases ha
        simp [FRet.hasVar, h1, h2, h3]
      · rw [if_neg h3] at h
        rcases option_bind_eq_some_iff.mp h with ⟨a, _, ha⟩
        cases ha
        simp [FRet.hasVar, h3]
    · rw [if_neg h2] at h
      rcases option_bind_eq_some_iff.mp h with ⟨a, _, ha⟩
      cases ha
      simp [FRet.hasVar, h2]
  · rw [if_neg h1] at h
    by_cases h4 : m.objective = "binary_classifier"
    · rw [if_pos h4] at h
      rcases option_bind_eq_some_iff.mp h with ⟨a, _, ha⟩
      cases ha
      simp [FRet.hasVar, h1]
    · rw [if_neg h4] at h
      by_cases h5 : m.objective = "multiclass"
      · rw [if_pos h5] at h
        rcases option_bind_eq_some_iff.mp h with ⟨a, _, ha⟩
        cases ha
        simp [FRet.hasVar, h1]
      · rw [if_neg h5] at h
        exact absurd h (by simp)

theorem forward_hasVar (m : ByteNetPairedSeqsM) (mask : ℕ → ℕ → ℕ → ℕ → ℝ)
    (x : Tens3) (up gv : Bool) (r : FRet) (m2 : ByteNetPairedSeqsM)
    (h : m.forward mask x up gv = some (r, m2)) :
    r.hasVar = true ↔ (gv = true ∧ m.llgp = true ∧ m.objective = "regression") := by
  unfold ByteNetPairedSeqsM.forward at h
  rcases option_bind_eq_some_iff.mp h with ⟨rep, _, hdisp⟩
  exact headDispatch_hasVar m rep up gv r m2 hdisp

/-- C7: on any call of `forward` or `predict` that requests the variance
(`get_var = True`) and returns, the return carries a variance component exactly
when the model is GP-headed (`llgp`) with the regression objective; in every other
configuration the flag is accepted and a single value is returned. -/
theorem variance_return_iff (m : ByteNetPairedSeqsM) (mask : ℕ → ℕ → ℕ → ℕ → ℝ)
    (x : Tens3) (up : Bool) :
    (∀ r m2, m.forward mask x up true = some (r, m2) →
      (r.hasVar = true ↔ (m.llgp = true ∧ m.objective = "regression"))) ∧
    (∀ r m2, m.predict mask x true = some (r, m2) →
      (r.hasVar = true ↔ (m.llgp = true ∧ m.objective = "regression"))) := by
  constructor
  · intro r m2 h
    rw [forward_hasVar m mask x up true r m2 h]
    simp
  · intro r m2 h
    unfold ByteNetPairedSeqsM.predict at h
    by_cases hc : ({ m with training := false } : ByteNetPairedSeqsM).llgp = true ∧
        (true : Bool) = true ∧
        ({ m with training := false } : ByteNetPairedSeqsM).objective = "regression"
    · rw [if_pos hc] at h
      cases hf : ({ m with training := false } : ByteNetPairedSeqsM).forward
          mask x false true with
      | none => rw [hf] at h; exact absurd h (by simp)
      | some pr =>
        obtain ⟨r1, mm1⟩ := pr
        rw [hf] at h
        cases r1 with
        | one v => exact absurd h (by simp)
        | two v var =>
          simp only [Option.some.injEq] at h
          cases h
          simp only [FRet.hasVar, true_iff]
          exact ⟨hc.1, hc.2.2⟩
    · rw [if_neg hc] at h
      have hv := forward_hasVar { m with training := false } mask x false false
        r m2 h
      simp only [Bool.false_eq_true, false_and, iff_false] at hv
      constructor
      · intro hr
        exact absurd hr hv
      · intro hcc
        exact absurd ⟨hcc.1, rfl, hcc.2⟩ hc

/-- Witness for C7: a concrete GP regression model where a variance-requesting
`forward` call succeeds, with the variance present as required. -/
theorem variance_return_iff_witness :
    (∃ r m2, wGPModel.forward mask0 [[[0]]] false true = some (r, m2)) ∧
    (∀ r m2, wGPModel.forward mask0 [[[0]]] false true = some (r, m2) →
      (r.hasVar = true ↔ (wGPModel.llgp = true ∧
        wGPModel.objective = "regression"))) :=
  ⟨⟨_, _, rfl⟩,
   fun r m2 h => (variance_return_iff wGPModel mask0 [[[0]]] false).1 r m2 h⟩

/-- C1 (code bug): when `llgp = True` the constructor builds the GP head with
`out_targets = 1` even in multiclass mode, so `forward` softmaxes a width-one
head output and returns shape `(B, 1)` instead of the documented
`(B, num_predicted_categories)`.  At the failing configuration (multiclass, three
categories, `llgp = True`) a batch of one sample yields output shape `(1, 1)`;
the same configuration without `llgp` yields the promised `(1, 3)`. -/
theorem multiclass_llgp_width_bug :
    cfgMcGp.num_predicted_categories = 3 ∧ cfgMcGp.llgp = true ∧
    (ByteNetPairedSeqs.init cfgMcGp wsW mk0).map
      (fun M => (M.forward mask0 [[[0]]] false false).map
        (fun r => FRet.valShape r.1)) = .ok (some (Sum.inr (1, 1))) ∧
    (ByteNetPairedSeqs.init cfgMcLin wsW mk0).map
      (fun M => (M.forward mask0 [[[0]]] false false).map
        (fun r => FRet.valShape r.1)) = .ok (some (Sum.inr (1, 3))) :=
  ⟨rfl, rfl, rfl, rfl⟩

theorem wf2_headI_length {a b : ℕ} {m : Mat} (h : wf2 a b m) (ha : 1 ≤ a) :
    m.headI.length = b := by
  rcases m with _ | ⟨r, rest⟩
  · have := h.1
    simp at this
    omega
  · exact h.2 r (List.mem_cons_self r rest)

theorem swap12_wf {a b : ℕ} {m : Mat} (h : wf2 a b m) (ha : 1 ≤ a) :
    wf2 b a (swap12 m) := by
  unfold swap12
  rw [wf2_headI_length h ha]
  constructor
  · simp
  · intro r hr
    rcases List.mem_map.mp hr with ⟨j, _, rfl⟩
    simp [h.1]

theorem convOutLen_pos {L p d k s lout : ℕ}
    (h : convOutLen L p d k s = some lout) : 1 ≤ lout := by
  unfold convOutLen at h
  split at h
  · cases h
    exact Nat.succ_le_succ (Nat.zero_le _)
  · cases h

theorem convOutLen_pff {L : ℕ} (hL : 1 ≤ L) : convOutLen L 0 1 1 1 = some L := by
  unfold convOutLen
  rw [if_pos (by omega)]
  congr 1
  omega

theorem convOutLen_same {L p d k : ℕ} (hL : 1 ≤ L) (hk : 1 ≤ k)
    (hp : 2 * p = d * (k - 1)) : convOutLen L p d k 1 = some L := by
  unfold convOutLen
  rw [if_pos (by omega)]
  congr 1
  omega

theorem applyCF_shape {c : Conv1dM} {x : Mat} {L lout : ℕ}
    (hx : wf2 c.in_channels L x) (hcin : 1 ≤ c.in_channels)
    (hlen : convOutLen L c.padding c.dilation c.kernel_size c.stride = some lout) :
    ∃ y, c.applyCF x = some y ∧ wf2 c.out_channels lout y := by
  unfold Conv1dM.applyCF
  rw [if_pos hx.1, wf2_headI_length hx hcin, hlen]
  refine ⟨_, rfl, by simp, ?_⟩
  intro r hr
  rcases List.mem_map.mp hr with ⟨o, _, rfl⟩
  simp

theorem convLayerForward_shape {c : Conv1dM} {L lout : ℕ} :
    ∀ {B : ℕ} {t : Tens3}, wf3 B L c.in_channels t → 1 ≤ L →
    1 ≤ c.in_channels → 1 ≤ c.out_channels →
    convOutLen L c.padding c.dilation c.kernel_size c.stride = some lout →
    ∃ y, convLayerForward c t = some y ∧ wf3 B lout c.out_channels y := by
  intro B t
  induction t generalizing B with
  | nil =>
    intro ht _ _ _ _
    exact ⟨[], rfl, ht.1, by simp⟩
  | cons s rest ih =>
    intro ht hL hcin hcout hlen
    have hs : wf2 L c.in_channels s := ht.2 s (List.mem_cons_self s rest)
    have hrest : wf3 rest.length L c.in_channels rest :=
      ⟨rfl, fun s2 h2 => ht.2 s2 (List.mem_cons_of_mem s h2)⟩
    rcases ih hrest hL hcin hcout hlen with ⟨ys, hys, hwys⟩
    have hsw : wf2 c.in_channels L (swap12 s) := swap12_wf hs hL
    rcases applyCF_shape hsw hcin hlen with ⟨y0, hy0, hwy0⟩
    have hlout : 1 ≤ lout := convOutLen_pos hlen
    refine ⟨swap12 y0 :: ys, ?_, ?_, ?_⟩
    · unfold convLayerForward
      rw [hy0, hys]
      rfl
    · simp [← ht.1, hwys.1]
    · intro s2 h2
      rcases List.mem_cons.mp h2 with rfl | h3
      · exact swap12_wf hwy0 hcout
      · exact hwys.2 s2 h3

theorem mapOpt_shape {α β : Type _} {f : α → Option β} {P : β → Prop} {l : List α}
    (h : ∀ a ∈ l, ∃ b, f a = some b ∧ P b) :
    ∃ bs, mapOpt f l = some bs ∧ bs.length = l.length ∧ ∀ b ∈ bs, P b := by
  induction l with
  | nil => exact ⟨[], rfl, rfl, by simp⟩
  | cons a l ih =>
    rcases h a (List.mem_cons_self a l) with ⟨b, hb, hPb⟩
    rcases ih (fun x hx => h x (List.mem_cons_of_mem a hx)) with ⟨bs, hbs, hlen, hP⟩
    refine ⟨b :: bs, ?_, by simp [hlen], ?_⟩
    · unfold mapOpt
      rw [hb, hbs]
    · intro b2 hb2
      rcases List.mem_cons.mp hb2 with rfl | h2
      · exact hPb
      · exact hP b2 h2

theorem lnVec_shape {ln : LayerNormM} {v : List ℝ} (h : v.length = ln.dim) :
    ∃ y, lnVec ln v = some y ∧ y.length = ln.dim := by
  unfold lnVec
  rw [if_pos h]
  exact ⟨_, rfl, by simp⟩

theorem lnMat_shape {ln : LayerNormM} {B : ℕ} {m : Mat} (hm : wf2 B ln.dim m) :
    ∃ y, lnMat ln m = some y ∧ wf2 B ln.dim y := by
  unfold lnMat
  rcases mapOpt_shape (f := lnVec ln) (P := fun r => r.length = ln.dim)
      (fun r hr => lnVec_shape (hm.2 r hr)) with ⟨bs, hbs, hlen, hP⟩
  exact ⟨bs, hbs, by rw [hlen, hm.1], hP⟩

theorem lnTens3_shape (ln : LayerNormM) {B L : ℕ} {t : Tens3}
    (ht : wf3 B L ln.dim t) :
    ∃ y, lnTens3 ln t = some y ∧ wf3 B L ln.dim y := by
  unfold lnTens3
  have h1 : ∀ s ∈ t, ∃ y, mapOpt (lnVec ln) s = some y ∧ wf2 L ln.dim y := by
    intro s hs
    have hw := ht.2 s hs
    rcases mapOpt_shape (f := lnVec ln) (P := fun r => r.length = ln.dim)
        (fun r hr => lnVec_shape (hw.2 r hr)) with ⟨bs, hbs, hlen, hP⟩
    exact ⟨bs, hbs, by rw [hlen, hw.1], hP⟩
  rcases mapOpt_shape h1 with ⟨ys, hys, hlen, hP⟩
  exact ⟨ys, hys, by rw [hlen, ht.1], hP⟩

theorem geluT_wf {B L C : ℕ} {t : Tens3} (ht : wf3 B L C t) :
    wf3 B L C (geluT t) := by
  unfold geluT
  refine ⟨by simp [ht.1], ?_⟩
  intro s hs
  rcases List.mem_map.mp hs with ⟨s0, hs0, rfl⟩
  have h2 := ht.2 s0 hs0
  refine ⟨by simp [h2.1], ?_⟩
  intro r hr
  rcases List.mem_map.mp hr with ⟨r0, hr0, rfl⟩
  simp [h2.2 r0 hr0]

theorem meanDim1_wf {B L C : ℕ} {t : Tens3} (ht : wf3 B L C t) (hL : 1 ≤ L) :
    wf2 B C (meanDim1 t) := by
  unfold meanDim1
  refine ⟨by simp [ht.1], ?_⟩
  intro r hr
  rcases List.mem_map.mp hr with ⟨s, hs, rfl⟩
  have h2 := ht.2 s hs
  rw [wf2_headI_length h2 hL]
  simp

theorem bcDim_self (a : ℕ) : bcDim a a = some a := by simp [bcDim]

theorem bshape_of_wf {B L C : ℕ} {t : Tens3} (ht : wf3 B L C t) (hB : 1 ≤ B)
    (hL : 1 ≤ L) : bshape t = (B, L, C) := by
  rcases t with _ | ⟨s, rest⟩
  · have := ht.1
    simp at this
    omega
  · have hs := ht.2 s (List.mem_cons_self s rest)
    rcases s with _ | ⟨r, rrest⟩
    · have := hs.1
      simp at this
      omega
    · have hr := hs.2 r (List.mem_cons_self r rrest)
      simp [bshape, ← ht.1, ← hs.1, hr]

theorem broadcastAdd_same {B L C : ℕ} {x y : Tens3} (hx : wf3 B L C x)
    (hy : wf3 B L C y) (hB : 1 ≤ B) (hL : 1 ≤ L) :
    ∃ z, broadcastAdd x y = some z ∧ wf3 B L C z := by
  unfold broadcastAdd
  rw [bshape_of_wf hx hB hL, bshape_of_wf hy hB hL]
  simp only [bcDim_self]
  refine ⟨_, rfl, by simp, ?_⟩
  intro s hs
  rcases List.mem_map.mp hs with ⟨i, _, rfl⟩
  refine ⟨by simp, ?_⟩
  intro r hr
  rcases List.mem_map.mp hr with ⟨j, _, rfl⟩
  simp

theorem broadcastAdd_channel_mismatch {B L C B2 L2 C2 : ℕ} {x y : Tens3}
    (hx : wf3 B L C x) (hy : wf3 B2 L2 C2 y) (hB : 1 ≤ B) (hL : 1 ≤ L)
    (hB2 : 1 ≤ B2) (hL2 : 1 ≤ L2) (hC : C ≠ C2) (hC1 : C ≠ 1) (hC2 : C2 ≠ 1) :
    broadcastAdd x y = none := by
  unfold broadcastAdd
  rw [bshape_of_wf hx hB hL, bshape_of_wf hy hB2 hL2]
  have hcd : bcDim C C2 = none := by simp [bcDim, hC, hC1, hC2]
  cases h1 : bcDim B B2 <;> cases h2 : bcDim L L2 <;> simp [hcd, h1, h2]

theorem mapWithIdx_aux_length {α β : Type _} (f : ℕ → α → β) :
    ∀ (i : ℕ) (l : List α), (mapWithIdx.aux f i l).length = l.length := by
  intro i l
  induction l generalizing i with
  | nil => rfl
  | cons a l ih => simp [mapWithIdx.aux, ih]

theorem mapWithIdx_aux_mem {α β : Type _} {f : ℕ → α → β} :
    ∀ {i : ℕ} {l : List α} {b : β}, b ∈ mapWithIdx.aux f i l →
      ∃ j a, a ∈ l ∧ b = f j a := by
  intro i l
  induction l generalizing i with
  | nil => intro b hb; cases hb
  | cons a l ih =>
    intro b hb
    rcases List.mem_cons.mp hb with rfl | h2
    · exact ⟨i, a, List.mem_cons_self a l, rfl⟩
    · rcases ih h2 with ⟨j, a2, ha2, rfl⟩
      exact ⟨j, a2, List.mem_cons_of_mem a ha2, rfl⟩

theorem dropoutApply_wf {mul : ℕ → ℕ → ℕ → ℝ} {B L C : ℕ} {t : Tens3}
    (ht : wf3 B L C t) : wf3 B L C (dropoutApply mul t) := by
  unfold dropoutApply mapWithIdx
  refine ⟨by rw [mapWithIdx_aux_length, ht.1], ?_⟩
  intro s hs
  rcases mapWithIdx_aux_mem hs with ⟨b, s0, hs0, rfl⟩
  have h2 := ht.2 s0 hs0
  refine ⟨by rw [mapWithIdx_aux_length, h2.1], ?_⟩
  intro r hr
  rcases mapWithIdx_aux_mem hr with ⟨l2, r0, hr0, rfl⟩
  rw [mapWithIdx_aux_length, h2.2 r0 hr0]

theorem pff_forward_shape {c : Conv1dM} {d_in d_out B L C : ℕ} {t : Tens3}
    (hc : isPff d_in d_out c) (ht : wf3 B L C t) (hC : C = d_in) (hL : 1 ≤ L)
    (hdin : 1 ≤ d_in) (hdout : 1 ≤ d_out) :
    ∃ y, convLayerForward c t = some y ∧ wf3 B L d_out y := by
  obtain ⟨h1, h2, h3, h4, h5, h6⟩ := hc
  subst hC
  have hlen : convOutLen L c.padding c.dilation c.kernel_size c.stride = some L := by
    rw [h3, h4, h5, h6]
    exact convOutLen_pff hL
  rcases convLayerForward_shape (by rw [h1]; exact ht) hL (by omega) (by omega)
    hlen with ⟨y, hy, hw⟩
  rw [h2] at hw
  exact ⟨y, hy, hw⟩

theorem convlayer_forward_shape_same {c : Conv1dM} {d_in d_out k dil B L C : ℕ}
    {t : Tens3} (hc : isConvLayer d_in d_out k dil c)
    (heven : Even (dil * (k - 1))) (hk : 1 ≤ k) (hdil : 1 ≤ dil)
    (ht : wf3 B L C t) (hC : C = d_in) (hL : 1 ≤ L) (hdin : 1 ≤ d_in)
    (hdout : 1 ≤ d_out) :
    ∃ y, convLayerForward c t = some y ∧ wf3 B L d_out y := by
  obtain ⟨h1, h2, h3, h4, h5, h6⟩ := hc
  subst hC
  have h2p : 2 * (dil * (k - 1) / 2) = dil * (k - 1) := by
    obtain ⟨c2, hc2⟩ := heven
    omega
  have hlen : convOutLen L c.padding c.dilation c.kernel_size c.stride = some L := by
    rw [h3, h4, h5, h6]
    exact convOutLen_same hL hk h2p
  rcases convLayerForward_shape (by rw [h1]; exact ht) hL (by omega) (by omega)
    hlen with ⟨y, hy, hw⟩
  rw [h2] at hw
  exact ⟨y, hy, hw⟩

theorem blockForward_shape {blk : ByteNetBlockM} {d_in d_h d_out k dil B L : ℕ}
    {x : Tens3} (hb : blockShaped d_in d_h d_out k dil blk)
    (heq : d_in = d_out) (heven : Even (dil * (k - 1))) (hk : 1 ≤ k)
    (hdil : 1 ≤ dil) (hdin : 1 ≤ d_in) (hdh : 1 ≤ d_h) (hB : 1 ≤ B) (hL : 1 ≤ L)
    (hx : wf3 B L d_in x) :
    ∃ y, blk.forward x = some y ∧ wf3 B L d_in y := by
  obtain ⟨hl1, hp1, hl2, hcv, hl3, hp2⟩ := hb
  rcases lnTens3_shape blk.ln1 (by rw [hl1]; exact hx) with ⟨a1, ha1, hw1⟩
  rw [hl1] at hw1
  rcases pff_forward_shape hp1 (geluT_wf hw1) rfl hL hdin hdh with ⟨a2, ha2, hw2⟩
  rcases lnTens3_shape blk.ln2 (by rw [hl2]; exact hw2) with ⟨a3, ha3, hw3⟩
  rw [hl2] at hw3
  rcases convlayer_forward_shape_same hcv heven hk hdil (geluT_wf hw3) rfl hL hdh
    hdh with ⟨a4, ha4, hw4⟩
  rcases lnTens3_shape blk.ln3 (by rw [hl3]; exact hw4) with ⟨a5, ha5, hw5⟩
  rw [hl3] at hw5
  have hdout : 1 ≤ d_out := by omega
  rcases pff_forward_shape hp2 (geluT_wf hw5) rfl hL hdh hdout with ⟨a6, ha6, hw6⟩
  rw [← heq] at hw6
  rcases broadcastAdd_same hx hw6 hB hL with ⟨z, hz, hwz⟩
  refine ⟨z, ?_, hwz⟩
  unfold ByteNetBlockM.forward
  simp only [ha1, option_some_bind, ha2, ha3, ha4, ha5, ha6, hz]

theorem convLayerForward_some_elim {c : Conv1dM} {B L : ℕ} {t y : Tens3}
    (ht : wf3 B L c.in_channels t) (hB : 1 ≤ B) (hL : 1 ≤ L)
    (hcin : 1 ≤ c.in_channels) (hcout : 1 ≤ c.out_channels)
    (h : convLayerForward c t = some y) :
    ∃ lout, 1 ≤ lout ∧
      convOutLen L c.padding c.dilation c.kernel_size c.stride = some lout ∧
      wf3 B lout c.out_channels y := by
  cases hlen : convOutLen L c.padding c.dilation c.kernel_size c.stride with
  | some lout =>
    rcases convLayerForward_shape ht hL hcin hcout hlen with ⟨y2, hy2, hw2⟩
    rw [h] at hy2
    cases hy2
    exact ⟨lout, convOutLen_pos hlen, rfl, hw2⟩
  | none =>
    rcases t with _ | ⟨s, rest⟩
    · have := ht.1
      simp at this
      omega
    · have hs : wf2 L c.in_channels s :=
        ht.2 s (List.mem_cons_self s rest)
      have hsw : wf2 c.in_channels L (swap12 s) := swap12_wf hs hL
      have happ : c.applyCF (swap12 s) = none := by
        unfold Conv1dM.applyCF
        rw [if_pos hsw.1, wf2_headI_length hsw hcin, hlen]
      unfold convLayerForward at h
      rw [happ] at h
      cases h

theorem runLayers_shape (dropout : ℝ) (training : Bool)
    (mask : ℕ → ℕ → ℕ → ℕ → ℝ) {k d_h hidden B L : ℕ}
    {blks : List ByteNetBlockM}
    (hall : ∀ blk ∈ blks, ∃ dil, blockShaped hidden d_h hidden k dil blk ∧
      1 ≤ dil ∧ Even (dil * (k - 1)))
    (hk : 1 ≤ k) (hhid : 1 ≤ hidden) (hdh : 1 ≤ d_h) (hB : 1 ≤ B) (hL : 1 ≤ L) :
    ∀ (i : ℕ) (x : Tens3), wf3 B L hidden x →
      ∃ y, runLayers dropout training mask blks i x = some y ∧ wf3 B L hidden y := by
  induction blks with
  | nil => exact fun i x hx => ⟨x, rfl, hx⟩
  | cons b rest ih =>
    intro i x hx
    rcases hall b (List.mem_cons_self b rest) with ⟨dil, hbs, hdil, heven⟩
    rcases blockForward_shape hbs rfl heven hk hdil hhid hdh hB hL hx with
      ⟨y, hy, hwy⟩
    have hdrop : wf3 B L hidden
        (if 0 < dropout ∧ training = true then dropoutApply (mask i) y else y) := by
      split
      · exact dropoutApply_wf hwy
      · exact hwy
    rcases ih (fun b2 h2 => hall b2 (List.mem_cons_of_mem b h2)) (i + 1) _ hdrop
      with ⟨z, hz, hwz⟩
    refine ⟨z, ?_, hwz⟩
    unfold runLayers
    simp only [hy, option_some_bind, hz]

theorem mapE_ok_mem {α β : Type _} {f : α → Except String β} :
    ∀ {l : List α} {bs : List β}, mapE f l = .ok bs →
      ∀ b ∈ bs, ∃ a ∈ l, f a = .ok b := by
  intro l
  induction l with
  | nil =>
    intro bs h
    unfold mapE at h
    cases h
    simp
  | cons a l ih =>
    intro bs h
    unfold mapE at h
    rcases except_bind_ok_iff.mp h with ⟨b, hb, h2⟩
    rcases except_bind_ok_iff.mp h2 with ⟨bs2, hbs2, h3⟩
    cases h3
    intro b2 hb2
    rcases List.mem_cons.mp hb2 with rfl | h4
    · exact ⟨a, List.mem_cons_self a l, hb⟩
    · rcases ih hbs2 b2 h4 with ⟨a2, ha2, hfa2⟩
      exact ⟨a2, List.mem_cons_of_mem a ha2, hfa2⟩

theorem dilationSchedule_ok_elim {n : ℕ} {d : ℤ} {dls : List ℕ}
    (h : dilationSchedule n d = .ok dls) :
    dls = (List.range n).map (fun i => 2 ^ (i % (Nat.log2 d.toNat + 1))) := by
  unfold dilationSchedule np_log2_int at h
  split at h
  · simp only [except_bind_error2] at h
    cases h
  · simp only [except_bind_ok2] at h
    cases h
    rfl

theorem byteNetBlock_make_elim {d_in d_h d_out k dil : ℕ} {w : BlockWeights}
    {blk : ByteNetBlockM}
    (h : ByteNetBlock.make d_in d_h d_out k dil 1 w = .ok blk) :
    blockShaped d_in d_h d_out k dil blk ∧ 1 ≤ k ∧ 1 ≤ dil := by
  unfold ByteNetBlock.make ConvLayer.make at h
  split at h
  · simp only [except_bind_error2] at h
    cases h
  next hcond =>
    split at h
    · simp only [except_bind_error2] at h
      cases h
    · simp only [except_bind_ok2] at h
      cases h
      push_neg at hcond
      refine ⟨?_, by omega, by omega⟩
      simp [blockShaped, isPff, isConvLayer, PositionFeedForward.make]

theorem init_ok_structure {cfg : Config} {ws : ModelWeights}
    {mk : ℕ → ℕ → ℕ → ℝ → ℝ → String → ℕ → GPHead} {M : ByteNetPairedSeqsM}
    (h : ByteNetPairedSeqs.init cfg ws mk = .ok M) :
    isPff cfg.input_dim cfg.hidden_dim M.adjuster ∧
    isPff cfg.hidden_dim cfg.rep_dim M.down_adjuster ∧
    M.final_lnorm.dim = cfg.rep_dim ∧
    (∀ blk ∈ M.antibody_layers, ∃ dil, blockShaped cfg.hidden_dim
      (if cfg.slim then cfg.hidden_dim / 2 else cfg.hidden_dim) cfg.hidden_dim
      cfg.kernel_size dil blk ∧ 1 ≤ dil) := by
  unfold ByteNetPairedSeqs.init at h
  rcases except_bind_ok_iff.mp h with ⟨nl, _, h2⟩
  rcases except_bind_ok_iff.mp h2 with ⟨dls, hdls, h3⟩
  rcases except_bind_ok_iff.mp h3 with ⟨ab, hab, h4⟩
  rcases except_bind_ok_iff.mp h4 with ⟨ag, hag, h5⟩
  cases h5
  refine ⟨by simp [isPff, PositionFeedForward.make],
    by simp [isPff, PositionFeedForward.make], rfl, ?_⟩
  intro blk hblk
  rcases mapE_ok_mem hab blk hblk with ⟨n, hn, hmk2⟩
  rcases byteNetBlock_make_elim hmk2 with ⟨hbs, _, hdil⟩
  exact ⟨_, hbs, hdil⟩

/-- C4 (amended): a `ConvLayer` at stride 1 applies padding
`dilation * (kernel_size - 1) // 2` on each side, and whenever
`dilation * (kernel_size - 1)` is even (in particular for every odd kernel size)
the forward output on a `(B, L, in_channels)` input has shape
`(B, L, out_channels)`.  (When `dilation * (kernel_size - 1)` is odd the output
length is `L - 1`, so the unrestricted same-length claim fails; see the
counterexample.) -/
theorem convlayer_padding_same_length (cin cout k d g B L : ℕ)
    (w : List (List (List ℝ))) (bias : List ℝ) (x : Tens3)
    (hk : 1 ≤ k) (hd : 1 ≤ d) (hg : 1 ≤ g) (hgc : g ∣ cin) (hgo : g ∣ cout)
    (hcin : 1 ≤ cin) (hcout : 1 ≤ cout) (heven : Even (d * (k - 1)))
    (hL : 1 ≤ L) (hx : wf3 B L cin x) :
    ∃ c, ConvLayer.make cin cout k 1 d g w bias = .ok c ∧
      c.padding = d * (k - 1) / 2 ∧
      ∃ y, convLayerForward c x = some y ∧ wf3 B L cout y := by
  unfold ConvLayer.make
  rw [if_neg (by omega), if_neg (by simp [hgc, hgo])]
  refine ⟨_, rfl, rfl, ?_⟩
  have h2p : 2 * (d * (k - 1) / 2) = d * (k - 1) := by
    obtain ⟨c2, hc2⟩ := heven
    omega
  exact convLayerForward_shape
    (c := ⟨cin, cout, k, 1, d, g, d * (k - 1) / 2, w, bias⟩) hx hL hcin hcout
    (convOutLen_same hL hk h2p)

/-- Counterexample for C4 as stated: with kernel size 2 and dilation 1 the padding
is 0, and a length-3 input comes out with length 2, not 3. -/
theorem convlayer_padding_same_length_cex :
    (ConvLayer.make 1 1 2 1 1 1 [[[1, 1]]] [0]).map
      (fun c => (convLayerForward c [[[0], [0], [0]]]).map bshape) =
      .ok (some (1, 2, 1)) := rfl

/-- Witness for C4 (amended) at kernel size 3, dilation 1. -/
theorem convlayer_padding_same_length_witness :
    (Even (1 * (3 - 1)) ∧ wf3 1 1 1 [[[(0 : ℝ)]]]) ∧
    ∃ c, ConvLayer.make 1 1 3 1 1 1 [[[1, 1, 1]]] [0] = .ok c ∧
      c.padding = 1 * (3 - 1) / 2 ∧
      ∃ y, convLayerForward c [[[0]]] = some y ∧ wf3 1 1 1 y :=
  ⟨⟨by decide, by simp [wf3, wf2]⟩,
   convlayer_padding_same_length 1 1 3 1 1 1 1 [[[1, 1, 1]]] [0] [[[0]]]
     (by decide) (by decide) (by decide) (by decide) (by decide) (by decide)
     (by decide) (by decide) (by decide) (by simp [wf3, wf2])⟩

/-- C6 (amended): for a `ByteNetBlock` built by the constructor (with positive
channel widths), on a well-formed `(B, L, d_in)` input: when `d_in = d_out` and
`dilation * (kernel_size - 1)` is even the residual forward succeeds and preserves
the input shape; when `d_in ≠ d_out` and neither width is 1 the forward pass
fails (the residual sum has incompatible shapes).  (As stated the claim fails both
for even kernels, where the convolution shortens the sequence, and for width-one
sides, which torch broadcasting accepts; see the counterexample.) -/
theorem bytenet_block_residual (d_in d_h d_out k dil B L : ℕ) (w : BlockWeights)
    (blk : ByteNetBlockM) (x : Tens3)
    (hmk : ByteNetBlock.make d_in d_h d_out k dil 1 w = .ok blk)
    (hdin : 1 ≤ d_in) (hdh : 1 ≤ d_h) (hdout : 1 ≤ d_out)
    (hB : 1 ≤ B) (hL : 1 ≤ L) (hx : wf3 B L d_in x) :
    (d_in = d_out → Even (dil * (k - 1)) →
      ∃ y, blk.forward x = some y ∧ wf3 B L d_in y) ∧
    (d_in ≠ d_out → d_in ≠ 1 → d_out ≠ 1 → blk.forward x = none) := by
  rcases byteNetBlock_make_elim hmk with ⟨hbs, hk, hdil⟩
  constructor
  · intro heq heven
    exact blockForward_shape hbs heq heven hk hdil hdin hdh hB hL hx
  · intro hne h1 h2
    obtain ⟨hl1, hp1, hl2, hcv, hl3, hp2⟩ := hbs
    rcases lnTens3_shape blk.ln1 (by rw [hl1]; exact hx) with ⟨a1, ha1, hw1⟩
    rw [hl1] at hw1
    rcases pff_forward_shape hp1 (geluT_wf hw1) rfl hL hdin hdh with ⟨a2, ha2, hw2⟩
    rcases lnTens3_shape blk.ln2 (by rw [hl2]; exact hw2) with ⟨a3, ha3, hw3⟩
    rw [hl2] at hw3
    cases hconv : convLayerForward blk.conv (geluT a3) with
    | none =>
      unfold ByteNetBlockM.forward
      simp only [ha1, option_some_bind, ha2, ha3, hconv, option_none_bind]
    | some a4 =>
      obtain ⟨hc1, hc2, hc3, hc4, hc5, hc6⟩ := hcv
      have hg3 : wf3 B L blk.conv.in_channels (geluT a3) := by
        rw [hc1]
        exact geluT_wf hw3
      rcases convLayerForward_some_elim hg3 hB hL (by rw [hc1]; exact hdh)
        (by rw [hc2]; exact hdh) hconv with ⟨lout, hlout, _, hw4⟩
      rw [hc2] at hw4
      rcases lnTens3_shape blk.ln3 (by rw [hl3]; exact hw4) with
        ⟨a5, ha5, hw5⟩
      rw [hl3] at hw5
      rcases pff_forward_shape hp2 (geluT_wf hw5) rfl hlout hdh hdout with
        ⟨a6, ha6, hw6⟩
      have hadd : broadcastAdd x a6 = none :=
        broadcastAdd_channel_mismatch hx hw6 hB hL hB hlout hne h1 h2
      unfold ByteNetBlockM.forward
      simp only [ha1, option_some_bind, ha2, ha3, hconv, ha5, ha6, hadd]

/-- Counterexample for C6 as stated: a block with `d_in = d_out = 1` but kernel
size 2 fails on a length-3 input (the convolution shortens the sequence, so the
residual sum raises); and a block with `d_in = 1 ≠ 2 = d_out` does not fail — the
width-one input broadcasts against the width-two branch and the forward returns a
`(1, 1, 2)` output. -/
theorem bytenet_block_residual_cex :
    (ByteNetBlock.make 1 1 1 2 1 1 bw0).map
      (fun blk => blk.forward [[[0], [0], [0]]]) = .ok none ∧
    (ByteNetBlock.make 1 1 2 1 1 1 bw0).map
      (fun blk => (blk.forward [[[0]]]).map bshape) = .ok (some (1, 1, 2)) :=
  ⟨rfl, rfl⟩

/-- Witness for C6 (amended) at a width-one block with kernel size 1. -/
theorem bytenet_block_residual_witness :
    (ByteNetBlock.make 1 1 1 1 1 1 bw0 = .ok oddKBlock ∧
      wf3 1 1 1 [[[(0 : ℝ)]]]) ∧
    (((1 : ℕ) = 1 → Even (1 * (1 - 1)) →
        ∃ y, oddKBlock.forward [[[0]]] = some y ∧ wf3 1 1 1 y) ∧
      ((1 : ℕ) ≠ 1 → (1 : ℕ) ≠ 1 → (1 : ℕ) ≠ 1 →
        oddKBlock.forward [[[0]]] = none)) :=
  ⟨⟨rfl, by simp [wf3, wf2]⟩,
   bytenet_block_residual 1 1 1 1 1 1 1 bw0 oddKBlock [[[0]]] rfl
     (by decide) (by decide) (by decide) (by decide) (by decide)
     (by simp [wf3, wf2])⟩

/-- C5 (amended): for every model the constructor accepts whose kernel size is
odd (so that every scheduled dilation keeps the convolutions length-preserving)
and whose channel widths are positive, the encoder tower maps any well-formed
`(B, L, input_dim)` input with `L ≥ 1` to a pooled representation of shape
`(B, rep_dim)` — independent of `L`.  (As stated the claim fails for even kernel
sizes: the dilation-1 block shortens the sequence and the residual sum raises;
see the counterexample.) -/
theorem encoder_pooled_shape (cfg : Config) (ws : ModelWeights)
    (mk : ℕ → ℕ → ℕ → ℝ → ℝ → String → ℕ → GPHead) (M : ByteNetPairedSeqsM)
    (mask : ℕ → ℕ → ℕ → ℕ → ℝ) (B L : ℕ) (x : Tens3)
    (hinit : ByteNetPairedSeqs.init cfg ws mk = .ok M)
    (hodd : Odd cfg.kernel_size)
    (hin : 1 ≤ cfg.input_dim) (hhid : 1 ≤ cfg.hidden_dim)
    (hdh : 1 ≤ (if cfg.slim then cfg.hidden_dim / 2 else cfg.hidden_dim))
    (hrep : 1 ≤ cfg.rep_dim) (hB : 1 ≤ B) (hL : 1 ≤ L)
    (hx : wf3 B L cfg.input_dim x) :
    ∃ rep, M.encode mask x = some rep ∧ wf2 B cfg.rep_dim rep := by
  rcases init_ok_structure hinit with ⟨hadj, hdown, hln, hblks⟩
  have hk : 1 ≤ cfg.kernel_size := by
    obtain ⟨c2, hc2⟩ := hodd
    omega
  rcases pff_forward_shape hadj hx rfl hL hin hhid with ⟨x1, hx1, hw1⟩
  have hall : ∀ blk ∈ M.antibody_layers, ∃ dil, blockShaped cfg.hidden_dim
      (if cfg.slim then cfg.hidden_dim / 2 else cfg.hidden_dim) cfg.hidden_dim
      cfg.kernel_size dil blk ∧ 1 ≤ dil ∧
      Even (dil * (cfg.kernel_size - 1)) := by
    intro blk hb
    rcases hblks blk hb with ⟨dil, hbs, hdil⟩
    have heven : Even (dil * (cfg.kernel_size - 1)) := by
      obtain ⟨c2, hc2⟩ := hodd
      refine ⟨dil * c2, ?_⟩
      have hsub : cfg.kernel_size - 1 = 2 * c2 := by omega
      rw [hsub]
      ring
    exact ⟨dil, hbs, hdil, heven⟩
  rcases runLayers_shape M.dropout M.training mask hall hk hhid hdh hB hL 0 x1
    hw1 with ⟨x2, hx2, hw2⟩
  rcases pff_forward_shape hdown hw2 rfl hL hhid hrep with ⟨x3, hx3, hw3⟩
  have hpool : wf2 B M.final_lnorm.dim (meanDim1 x3) := by
    rw [hln]
    exact meanDim1_wf hw3 hL
  rcases lnMat_shape hpool with ⟨rep, hrep2, hwrep⟩
  rw [hln] at hwrep
  refine ⟨rep, ?_, hwrep⟩
  unfold ByteNetPairedSeqsM.encode
  simp only [hx1, option_some_bind, hx2, hx3, hrep2]

/-- Counterexample for C5 as stated: a well-constructed model with kernel size 2
whose encoder raises on a length-3 input (the residual sum shapes mismatch), so
no pooled representation is produced. -/
theorem encoder_pooled_shape_cex :
    (ByteNetPairedSeqs.init cfgEvenK wsW mk0).map
      (fun M => M.encode mask0 [[[0], [0], [0]]]) = .ok none := rfl

/-- Witness for C5 (amended) at a one-block model with kernel size 1 and a
length-2 input. -/
theorem encoder_pooled_shape_witness :
    (ByteNetPairedSeqs.init cfgOddK wsW mk0 = .ok oddKModel ∧
      Odd cfgOddK.kernel_size ∧ wf3 1 2 cfgOddK.input_dim [[[(0 : ℝ)], [0]]]) ∧
    ∃ rep, oddKModel.encode mask0 [[[0], [0]]] = some rep ∧
      wf2 1 cfgOddK.rep_dim rep :=
  ⟨⟨rfl, ⟨0, by decide⟩, by simp [cfgOddK, cfgBase, wf3, wf2]⟩,
   encoder_pooled_shape cfgOddK wsW mk0 oddKModel mask0 1 2 [[[0], [0]]] rfl
     ⟨0, by decide⟩ (by decide) (by decide) (by decide) (by decide) (by decide)
     (by decide) (by simp [cfgOddK, cfgBase, wf3, wf2])⟩
